import Mathlib

/-!
Verification of the OCR document-data extraction engine
(`src/services/ocr.ts` of the Universal-Kyc-Passport repository).

Strings are modelled as `List Char`.  JavaScript regular-expression
constructs are embedded as explicit scanners:

* `\w` is the ASCII word-character class `[A-Za-z0-9_]`;
* `\b` (word boundary) is tracked by a boolean `pw` flag recording whether
  the previous character is a word character (`false` at the start of the
  string, so a leading word character sits on a boundary, as in JS);
* the `i` flag is ASCII case folding, which coincides with the JS
  canonicalisation rule because non-ASCII characters never canonicalise
  into ASCII code points;
* a global replace (`/.../g`) is a single left-to-right pass that restarts
  scanning immediately after each replaced match, exactly as
  `String.prototype.replace` does.

All replacement rules of `normalizeOCRText` substitute text of the same
length as the match, and replace word characters by word characters, so
positions and word boundaries are stable across passes; these facts are
proved below, not assumed.
-/

namespace KycOcr

/-- JS `\w`: ASCII letter, digit or underscore, by code point. -/
def wordCharN (n : Nat) : Bool :=
  (65 ≤ n && n ≤ 90) || (97 ≤ n && n ≤ 122) || (48 ≤ n && n ≤ 57) || n == 95

/-- JS `\w` on a character. -/
def wordChar (c : Char) : Bool := wordCharN c.toNat

/-- ASCII case-folding code of a character: `a`-`z` fold to `A`-`Z`. -/
def ciN (c : Char) : Nat :=
  if 97 ≤ c.toNat && c.toNat ≤ 122 then c.toNat - 32 else c.toNat

/-- Case-insensitive character comparison (JS regex `i` flag, ASCII). -/
def ciEq (a b : Char) : Bool := ciN a == ciN b

/-- JS `String.prototype.toUpperCase`, restricted to ASCII (all inputs the
engine manipulates in the proofs below are ASCII). -/
def upC (c : Char) : Char :=
  if 97 ≤ c.toNat && c.toNat ≤ 122 then Char.ofNat (c.toNat - 32) else c

/-- `true` when the list starts with a non-word character or is empty:
this is the `\b` condition looked up *after* a token made of word
characters. -/
def nwHead : List Char → Bool
  | [] => true
  | c :: _ => !wordChar c

/-- A three-character replacement rule `\b t1t2t3 \b/gi → o1o2o3`. -/
structure Rule3 where
  t1 : Char
  t2 : Char
  t3 : Char
  o1 : Char
  o2 : Char
  o3 : Char

/-- The guard of `Rule3` at a position: previous character is not a word
character, the three characters match the token case-insensitively, and a
word boundary follows. -/
def g3 (R : Rule3) (pw : Bool) (a b c : Char) (rest : List Char) : Bool :=
  !pw && ciEq a R.t1 && ciEq b R.t2 && ciEq c R.t3 && nwHead rest

/-- One global pass of `text.replace(/\b t1t2t3 \b/gi, "o1o2o3")`: scan
left to right, replacing each boundary-delimited case-insensitive
occurrence and resuming after it. -/
def r3 (R : Rule3) : Bool → List Char → List Char
  | pw, a :: b :: c :: rest =>
    if g3 R pw a b c rest then
      R.o1 :: R.o2 :: R.o3 :: r3 R (wordChar R.o3) rest
    else
      a :: r3 R (wordChar a) (b :: c :: rest)
  | _, [] => []
  | _, [a] => [a]
  | _, [a, b] => [a, b]

/-- Guard of the `\b0\b → O` rule. -/
def g1 (pw : Bool) (c : Char) (rest : List Char) : Bool :=
  !pw && c == '0' && nwHead rest

/-- One global pass of `text.replace(/\b0\b/g, 'O')`. -/
def r1 : Bool → List Char → List Char
  | pw, c :: rest =>
    if g1 pw c rest then 'O' :: r1 (wordChar 'O') rest
    else c :: r1 (wordChar c) rest
  | _, [] => []

/-- ASCII upper-case letter. -/
def upperL (c : Char) : Bool := 65 ≤ c.toNat && c.toNat ≤ 90

/-- The vowels the `1`-to-`I` heuristic recognises. -/
def vowelU (c : Char) : Bool := c == 'A' || c == 'E' || c == 'O' || c == 'U'

/-- One global pass of
`text.replace(/1([A-Z])/g, (m, letter) => vowel ? 'I' + letter : m)`:
a `1` followed by an upper-case letter is a match (scanning resumes after
both characters); the replacement rewrites `1` to `I` only when the letter
is one of `A`, `E`, `O`, `U`. -/
def rOV : List Char → List Char
  | [] => []
  | [c] => [c]
  | a :: c :: rest =>
    if a == '1' && upperL c then
      (if vowelU c then 'I' else '1') :: c :: rOV rest
    else
      a :: rOV (c :: rest)

/-- `\b0CT\b/gi → OCT` (applied twice in the source, lines 52 and 62). -/
def ruleOCT : Rule3 := ⟨'0', 'C', 'T', 'O', 'C', 'T'⟩
/-- `\b1AN\b/gi → JAN`. -/
def rule1AN : Rule3 := ⟨'1', 'A', 'N', 'J', 'A', 'N'⟩
/-- `\bFEB\b/gi → FEB`. -/
def ruleFEB : Rule3 := ⟨'F', 'E', 'B', 'F', 'E', 'B'⟩
/-- `\bMAR\b/gi → MAR`. -/
def ruleMAR : Rule3 := ⟨'M', 'A', 'R', 'M', 'A', 'R'⟩
/-- `\bAPR\b/gi → APR`. -/
def ruleAPR : Rule3 := ⟨'A', 'P', 'R', 'A', 'P', 'R'⟩
/-- `\bMAY\b/gi → MAY`. -/
def ruleMAY : Rule3 := ⟨'M', 'A', 'Y', 'M', 'A', 'Y'⟩
/-- `\b1UN\b/gi → JUN`. -/
def rule1UN : Rule3 := ⟨'1', 'U', 'N', 'J', 'U', 'N'⟩
/-- `\b1UL\b/gi → JUL`. -/
def rule1UL : Rule3 := ⟨'1', 'U', 'L', 'J', 'U', 'L'⟩
/-- `\bAUG\b/gi → AUG`. -/
def ruleAUG : Rule3 := ⟨'A', 'U', 'G', 'A', 'U', 'G'⟩
/-- `\bSEP\b/gi → SEP`. -/
def ruleSEP : Rule3 := ⟨'S', 'E', 'P', 'S', 'E', 'P'⟩
/-- `\bN0V\b/gi → NOV`. -/
def ruleN0V : Rule3 := ⟨'N', '0', 'V', 'N', 'O', 'V'⟩
/-- `\bDEC\b/gi → DEC`. -/
def ruleDEC : Rule3 := ⟨'D', 'E', 'C', 'D', 'E', 'C'⟩

/-- The thirteen month-token replacement rules of `normalizeOCRText`
(src/services/ocr.ts lines 52-64), in source order (`0CT` appears twice,
as in the source). -/
def ocrMonthRules : List Rule3 :=
  [ruleOCT, rule1AN, ruleFEB, ruleMAR, ruleAPR, ruleMAY, rule1UN, rule1UL,
   ruleAUG, ruleSEP, ruleOCT, ruleN0V, ruleDEC]

/-- Apply a chain of `.replace` passes in order. -/
def applyRules : List Rule3 → List Char → List Char
  | [], l => l
  | R :: Rs, l => applyRules Rs (r3 R false l)

/-- The thirteen month-token replacement passes of `normalizeOCRText`, in
source order. -/
def monthPasses (l : List Char) : List Char :=
  applyRules ocrMonthRules l

/-- `normalizeOCRText` (src/services/ocr.ts lines 48-74) on char lists:
the thirteen month-token passes, then `\b0\b → O`, then the
`1`-before-vowel pass. -/
def normalizeOCRTextL (l : List Char) : List Char :=
  rOV (r1 false (monthPasses l))

/-- `normalizeOCRText` on strings. -/
def normalizeOCRText (s : String) : String := ⟨normalizeOCRTextL s.data⟩

example : normalizeOCRText "17 0CT 2001" = "17 OCT 2001" := by decide
example : normalizeOCRText "1AN x1AN 0 N0V" = "JAN xIAN O NOV" := by decide
example : normalizeOCRText "feb 1UL" = "FEB JUL" := by decide

/-! ### Character-class facts -/

theorem word_of_upper {c : Char} (h : upperL c = true) : wordChar c = true := by
  unfold upperL at h
  unfold wordChar wordCharN
  simp only [Bool.and_eq_true, decide_eq_true_eq] at h
  simp only [Bool.or_eq_true, Bool.and_eq_true, decide_eq_true_eq, beq_iff_eq]
  omega

theorem wordCharN_ciN (c : Char) : wordCharN (ciN c) = wordCharN c.toNat := by
  unfold ciN
  split
  · rename_i h
    simp only [Bool.and_eq_true, decide_eq_true_eq] at h
    have h1 : wordCharN (c.toNat - 32) = true := by
      simp only [wordCharN, Bool.or_eq_true, Bool.and_eq_true, decide_eq_true_eq, beq_iff_eq]
      omega
    have h2 : wordCharN c.toNat = true := by
      simp only [wordCharN, Bool.or_eq_true, Bool.and_eq_true, decide_eq_true_eq, beq_iff_eq]
      omega
    rw [h1, h2]
  · rfl

theorem wordChar_ci {a b : Char} (h : ciEq a b = true) : wordChar a = wordChar b := by
  unfold ciEq at h
  rw [beq_iff_eq] at h
  unfold wordChar
  rw [← wordCharN_ciN a, ← wordCharN_ciN b, h]

theorem wc_of_ci {a b : Char} (h : ciEq a b = true) (hb : wordChar b = true) :
    wordChar a = true := (wordChar_ci h).trans hb

/-- The properties shared by all replacement rules of `normalizeOCRText`:
token characters are word characters, output characters are upper-case
letters, and no token character is (case-insensitively) the letter `I`. -/
structure Tame (R : Rule3) : Prop where
  wt1 : wordChar R.t1 = true
  wt2 : wordChar R.t2 = true
  wt3 : wordChar R.t3 = true
  uo1 : upperL R.o1 = true
  uo2 : upperL R.o2 = true
  uo3 : upperL R.o3 = true
  ni1 : ciEq 'I' R.t1 = false
  ni2 : ciEq 'I' R.t2 = false
  ni3 : ciEq 'I' R.t3 = false

theorem tame_ruleOCT : Tame ruleOCT := by constructor <;> decide
theorem tame_rule1AN : Tame rule1AN := by constructor <;> decide
theorem tame_ruleFEB : Tame ruleFEB := by constructor <;> decide
theorem tame_ruleMAR : Tame ruleMAR := by constructor <;> decide
theorem tame_ruleAPR : Tame ruleAPR := by constructor <;> decide
theorem tame_ruleMAY : Tame ruleMAY := by constructor <;> decide
theorem tame_rule1UN : Tame rule1UN := by constructor <;> decide
theorem tame_rule1UL : Tame rule1UL := by constructor <;> decide
theorem tame_ruleAUG : Tame ruleAUG := by constructor <;> decide
theorem tame_ruleSEP : Tame ruleSEP := by constructor <;> decide
theorem tame_ruleN0V : Tame ruleN0V := by constructor <;> decide
theorem tame_ruleDEC : Tame ruleDEC := by constructor <;> decide

/-! ### Unfolding lemmas for the scanners -/

theorem r3_nil (R : Rule3) (pw : Bool) : r3 R pw [] = [] := rfl

theorem r3_one (R : Rule3) (pw : Bool) (a : Char) : r3 R pw [a] = [a] := rfl

theorem r3_two (R : Rule3) (pw : Bool) (a b : Char) : r3 R pw [a, b] = [a, b] := rfl

theorem r3_cons (R : Rule3) (pw : Bool) (a b c : Char) (rest : List Char) :
    r3 R pw (a :: b :: c :: rest) =
      if g3 R pw a b c rest then
        R.o1 :: R.o2 :: R.o3 :: r3 R (wordChar R.o3) rest
      else
        a :: r3 R (wordChar a) (b :: c :: rest) := by
  rw [r3]

theorem r3_pos {R : Rule3} {pw : Bool} {a b c : Char} {rest : List Char}
    (hg : g3 R pw a b c rest = true) :
    r3 R pw (a :: b :: c :: rest) = R.o1 :: R.o2 :: R.o3 :: r3 R (wordChar R.o3) rest := by
  rw [r3_cons, if_pos hg]

theorem r3_neg {R : Rule3} {pw : Bool} {a b c : Char} {rest : List Char}
    (hg : g3 R pw a b c rest = false) :
    r3 R pw (a :: b :: c :: rest) = a :: r3 R (wordChar a) (b :: c :: rest) := by
  rw [r3_cons, if_neg (by simp [hg])]

/-- With a word character on the left there is no boundary, so the scanner
always steps over the head character. -/
theorem r3_true_cons (R : Rule3) (x : Char) (xs : List Char) :
    r3 R true (x :: xs) = x :: r3 R (wordChar x) xs := by
  match xs with
  | [] => rfl
  | [y] => rfl
  | y :: z :: rest =>
    have hg : g3 R true x y z rest = false := by simp [g3]
    rw [r3_neg hg]

theorem r1_nil (pw : Bool) : r1 pw [] = [] := rfl

theorem r1_cons (pw : Bool) (c : Char) (rest : List Char) :
    r1 pw (c :: rest) =
      if g1 pw c rest then 'O' :: r1 (wordChar 'O') rest
      else c :: r1 (wordChar c) rest := by
  rw [r1]

theorem r1_pos {pw : Bool} {c : Char} {rest : List Char} (hg : g1 pw c rest = true) :
    r1 pw (c :: rest) = 'O' :: r1 (wordChar 'O') rest := by
  rw [r1_cons, if_pos hg]

theorem r1_neg {pw : Bool} {c : Char} {rest : List Char} (hg : g1 pw c rest = false) :
    r1 pw (c :: rest) = c :: r1 (wordChar c) rest := by
  rw [r1_cons, if_neg (by simp [hg])]

theorem r1_true_cons (c : Char) (rest : List Char) :
    r1 true (c :: rest) = c :: r1 (wordChar c) rest := by
  have hg : g1 true c rest = false := by simp [g1]
  rw [r1_neg hg]

theorem rOV_nil : rOV [] = [] := rfl

theorem rOV_one (c : Char) : rOV [c] = [c] := rfl

theorem rOV_cons (a c : Char) (rest : List Char) :
    rOV (a :: c :: rest) =
      if a == '1' && upperL c then
        (if vowelU c then 'I' else '1') :: c :: rOV rest
      else
        a :: rOV (c :: rest) := by
  rw [rOV]

/-! ### The passes preserve word-boundary structure and length -/

theorem r3_nwHead {R : Rule3} (T : Tame R) (pw : Bool) (l : List Char) :
    nwHead (r3 R pw l) = nwHead l := by
  match l with
  | [] => rfl
  | [a] => rfl
  | [a, b] => rfl
  | a :: b :: c :: rest =>
    by_cases hg : g3 R pw a b c rest = true
    · rw [r3_pos hg]
      have ha : ciEq a R.t1 = true := by
        simp only [g3, Bool.and_eq_true] at hg
        exact hg.1.1.1.2
      simp only [nwHead, word_of_upper T.uo1, wc_of_ci ha T.wt1]
    · rw [r3_neg (by simpa using hg)]
      rfl

theorem r1_nwHead (pw : Bool) (l : List Char) : nwHead (r1 pw l) = nwHead l := by
  match l with
  | [] => rfl
  | c :: rest =>
    by_cases hg : g1 pw c rest = true
    · rw [r1_pos hg]
      have hc : c = '0' := by
        simp only [g1, Bool.and_eq_true, beq_iff_eq] at hg
        exact hg.1.2
      subst hc
      rfl
    · rw [r1_neg (by simpa using hg)]
      rfl

theorem rOV_nwHead (l : List Char) : nwHead (rOV l) = nwHead l := by
  match l with
  | [] => rfl
  | [c] => rfl
  | a :: c :: rest =>
    rw [rOV_cons]
    by_cases hm : (a == '1' && upperL c) = true
    · rw [if_pos hm]
      have ha : a = '1' := by
        simp only [Bool.and_eq_true, beq_iff_eq] at hm
        exact hm.1
      subst ha
      by_cases hv : vowelU c = true <;> simp [hv, nwHead, wordChar, wordCharN]
    · rw [if_neg (by simpa using hm)]
      rfl

theorem r3_length (R : Rule3) : ∀ (pw : Bool) (l : List Char),
    (r3 R pw l).length = l.length
  | _, [] => rfl
  | _, [_] => rfl
  | _, [_, _] => rfl
  | pw, a :: b :: c :: rest => by
    by_cases hg : g3 R pw a b c rest = true
    · rw [r3_pos hg]
      simp [r3_length R (wordChar R.o3) rest]
    · rw [r3_neg (by simpa using hg)]
      simp [r3_length R (wordChar a) (b :: c :: rest)]

theorem r1_length : ∀ (pw : Bool) (l : List Char), (r1 pw l).length = l.length
  | _, [] => rfl
  | pw, c :: rest => by
    by_cases hg : g1 pw c rest = true
    · rw [r1_pos hg]
      simp [r1_length (wordChar 'O') rest]
    · rw [r1_neg (by simpa using hg)]
      simp [r1_length (wordChar c) rest]

theorem rOV_length : ∀ l : List Char, (rOV l).length = l.length
  | [] => rfl
  | [_] => rfl
  | a :: c :: rest => by
    rw [rOV_cons]
    by_cases hm : (a == '1' && upperL c) = true
    · rw [if_pos hm]
      simp [rOV_length rest]
    · rw [if_neg (by simpa using hm)]
      simp [rOV_length (c :: rest)]

/-! ### Guard analysis -/

theorem g3_parts {R : Rule3} {pw : Bool} {a b c : Char} {rest : List Char}
    (hg : g3 R pw a b c rest = true) :
    pw = false ∧ ciEq a R.t1 = true ∧ ciEq b R.t2 = true ∧ ciEq c R.t3 = true ∧
      nwHead rest = true := by
  simp only [g3, Bool.and_eq_true, Bool.not_eq_true'] at hg
  exact ⟨hg.1.1.1.1, hg.1.1.1.2, hg.1.1.2, hg.1.2, hg.2⟩

theorem g1_parts {pw : Bool} {c : Char} {rest : List Char} (hg : g1 pw c rest = true) :
    pw = false ∧ c = '0' ∧ nwHead rest = true := by
  simp only [g1, Bool.and_eq_true, Bool.not_eq_true', beq_iff_eq] at hg
  exact ⟨hg.1.1, hg.1.2, hg.2⟩

theorem g3_congr_rest {R : Rule3} {pw : Bool} {a b c : Char} {rest rest' : List Char}
    (h : nwHead rest = nwHead rest') : g3 R pw a b c rest = g3 R pw a b c rest' := by
  unfold g3
  rw [h]

theorem g1_congr_rest {pw : Bool} {c : Char} {rest rest' : List Char}
    (h : nwHead rest = nwHead rest') : g1 pw c rest = g1 pw c rest' := by
  unfold g1
  rw [h]

theorem ci_false_of_nonword {x t : Char} (hx : wordChar x = false) (ht : wordChar t = true) :
    ciEq x t = false := by
  by_cases h : ciEq x t = true
  · rw [wordChar_ci h, ht] at hx
    exact absurd hx (by simp)
  · simpa using h

/-- The scanner steps over the head when the first token character cannot
match. -/
theorem r3_skip1 {R : Rule3} (h : ciEq x R.t1 = false) (pw : Bool) :
    ∀ Z : List Char, r3 R pw (x :: Z) = x :: r3 R (wordChar x) Z
  | [] => rfl
  | [y] => rfl
  | y :: z :: W => by
    refine r3_neg ?_
    simp [g3, h]

/-- The scanner steps over the head when the second token character cannot
match. -/
theorem r3_skip2 {R : Rule3} (h : ciEq y R.t2 = false) (pw : Bool) (x : Char) :
    ∀ Z : List Char, r3 R pw (x :: y :: Z) = x :: r3 R (wordChar x) (y :: Z)
  | [] => rfl
  | z :: W => by
    refine r3_neg ?_
    simp [g3, h]

/-- The scanner steps over the head when the third token character cannot
match. -/
theorem r3_skip3 {R : Rule3} (h : ciEq z R.t3 = false) (pw : Bool) (x y : Char) :
    ∀ Z : List Char, r3 R pw (x :: y :: z :: Z) = x :: r3 R (wordChar x) (y :: z :: Z) := by
  intro Z
  refine r3_neg ?_
  simp [g3, h]

/-- The scanner steps over the head when a word character sits right after
the candidate token (no closing boundary). -/
theorem r3_skip4 {w : Char} (hw : wordChar w = true) (R : Rule3) (pw : Bool) (x y z : Char)
    (W : List Char) :
    r3 R pw (x :: y :: z :: w :: W) = x :: r3 R (wordChar x) (y :: z :: w :: W) := by
  refine r3_neg ?_
  simp [g3, nwHead, hw]

/-! ### Fixed points of a single `r3` pass -/

/-- A match inside a fixed point of `r3` can only rewrite the matched text
to itself. -/
theorem fix_self {R : Rule3} {pw : Bool} {a b c : Char} {rest : List Char}
    (hg : g3 R pw a b c rest = true)
    (hfix : r3 R pw (a :: b :: c :: rest) = a :: b :: c :: rest) :
    a = R.o1 ∧ b = R.o2 ∧ c = R.o3 ∧ r3 R (wordChar R.o3) rest = rest := by
  rw [r3_pos hg] at hfix
  simp only [List.cons.injEq] at hfix
  exact ⟨hfix.1.symm, hfix.2.1.symm, hfix.2.2.1.symm, hfix.2.2.1 ▸ hfix.2.2.2⟩

/-- A fixed point of the scanner restricts to its tail. -/
theorem fix_tail {R : Rule3} (T : Tame R) {pw : Bool} {a b c : Char} {rest : List Char}
    (hfix : r3 R pw (a :: b :: c :: rest) = a :: b :: c :: rest) :
    r3 R (wordChar a) (b :: c :: rest) = b :: c :: rest := by
  by_cases hg : g3 R pw a b c rest = true
  · obtain ⟨ha, hb, hc, hrest⟩ := fix_self hg hfix
    have hwa : wordChar a = true := by rw [ha]; exact word_of_upper T.uo1
    have hwb : wordChar b = true := by rw [hb]; exact word_of_upper T.uo2
    rw [hwa, r3_true_cons, hwb, r3_true_cons, hc, hrest]
  · rw [r3_neg (by simpa using hg)] at hfix
    simp only [List.cons.injEq, true_and] at hfix
    exact hfix

/-- A fixed point of the scanner restricts three characters in, provided
they are word characters. -/
theorem fix_tail3 {R : Rule3} (T : Tame R) {pw : Bool} {a b c : Char} {rest : List Char}
    (hwa : wordChar a = true) (hwb : wordChar b = true) (hwc : wordChar c = true)
    (hfix : r3 R pw (a :: b :: c :: rest) = a :: b :: c :: rest) :
    r3 R true rest = rest := by
  have h1 := fix_tail T hfix
  rw [hwa, r3_true_cons, hwb] at h1
  simp only [List.cons.injEq, true_and] at h1
  rw [r3_true_cons, hwc] at h1
  simp only [List.cons.injEq, true_and] at h1
  exact h1

/-! ### Idempotence of one `r3` pass -/

theorem r3_idem {R : Rule3} (T : Tame R) : ∀ (pw : Bool) (l : List Char),
    r3 R pw (r3 R pw l) = r3 R pw l
  | _, [] => rfl
  | _, [a] => rfl
  | _, [a, b] => rfl
  | pw, a :: b :: c :: rest => by
    have ho1 : wordChar R.o1 = true := word_of_upper T.uo1
    have ho2 : wordChar R.o2 = true := word_of_upper T.uo2
    have ho3 : wordChar R.o3 = true := word_of_upper T.uo3
    by_cases hg : g3 R pw a b c rest = true
    · rw [r3_pos hg]
      by_cases hg2 : g3 R pw R.o1 R.o2 R.o3 (r3 R (wordChar R.o3) rest) = true
      · rw [r3_pos hg2, ho3, r3_idem T true rest]
      · rw [r3_neg (by simpa using hg2), ho1, r3_true_cons, ho2, r3_true_cons, ho3,
          r3_idem T true rest]
    · rw [r3_neg (by simpa using hg)]
      have IH := r3_idem T (wordChar a) (b :: c :: rest)
      cases rest with
      | nil =>
        rw [r3_two]
        rw [r3_neg (by simpa using hg), r3_two]
      | cons r0 rest' =>
        cases rest' with
        | nil =>
          by_cases hgb : g3 R (wordChar a) b c r0 [] = true
          · have hY : r3 R (wordChar a) (b :: c :: [r0]) = [R.o1, R.o2, R.o3] := by
              rw [r3_pos hgb, r3_nil]
            rw [hY] at IH ⊢
            rw [r3_skip4 ho3, IH]
          · have hY : r3 R (wordChar a) (b :: c :: [r0]) = [b, c, r0] := by
              rw [r3_neg (by simpa using hgb), r3_two]
            rw [hY] at IH ⊢
            rw [r3_neg (by simpa using hg), hY]
        | cons r1 rest2 =>
          by_cases hgb : g3 R (wordChar a) b c r0 (r1 :: rest2) = true
          · have hY : r3 R (wordChar a) (b :: c :: r0 :: r1 :: rest2) =
                R.o1 :: R.o2 :: R.o3 :: r3 R (wordChar R.o3) (r1 :: rest2) := r3_pos hgb
            rw [hY] at IH ⊢
            rw [r3_skip4 ho3, IH]
          · have hY1 : r3 R (wordChar a) (b :: c :: r0 :: r1 :: rest2) =
                b :: r3 R (wordChar b) (c :: r0 :: r1 :: rest2) :=
              r3_neg (by simpa using hgb)
            by_cases hgc : g3 R (wordChar b) c r0 r1 rest2 = true
            · have hY2 : r3 R (wordChar b) (c :: r0 :: r1 :: rest2) =
                  R.o1 :: R.o2 :: R.o3 :: r3 R (wordChar R.o3) rest2 := r3_pos hgc
              rw [hY1, hY2] at IH ⊢
              rw [r3_skip4 ho2, IH]
            · have hY2 : r3 R (wordChar b) (c :: r0 :: r1 :: rest2) =
                  c :: r3 R (wordChar c) (r0 :: r1 :: rest2) := r3_neg (by simpa using hgc)
              rw [hY1, hY2] at IH ⊢
              have hgz : g3 R pw a b c (r3 R (wordChar c) (r0 :: r1 :: rest2)) = false := by
                rw [g3_congr_rest (r3_nwHead T (wordChar c) (r0 :: r1 :: rest2))]
                simpa using hg
              rw [r3_neg hgz, IH]

/-! ### A later pass preserves fixed points of an earlier pass -/

/-- `cross Rf Rl` holds when the text written by pass `Rl` could itself
form the token of pass `Rf`. -/
def cross (Rf Rl : Rule3) : Bool :=
  ciEq Rl.o1 Rf.t1 && ciEq Rl.o2 Rf.t2 && ciEq Rl.o3 Rf.t3

theorem g3_false_of_cross {Rf Rl : Rule3} (h : cross Rf Rl = false) (pw : Bool)
    (rest : List Char) : g3 Rf pw Rl.o1 Rl.o2 Rl.o3 rest = false := by
  unfold cross at h
  unfold g3
  cases h1 : ciEq Rl.o1 Rf.t1 <;> cases h2 : ciEq Rl.o2 Rf.t2 <;>
    cases h3 : ciEq Rl.o3 Rf.t3 <;> simp_all

theorem r3_pres {Rf Rl : Rule3} (Tf : Tame Rf) (Tl : Tame Rl) (hc : cross Rf Rl = false) :
    ∀ (pw : Bool) (l : List Char), r3 Rf pw l = l →
      r3 Rf pw (r3 Rl pw l) = r3 Rl pw l
  | _, [], _ => rfl
  | _, [a], _ => by rw [r3_one, r3_one]
  | _, [a, b], _ => by rw [r3_two, r3_two]
  | pw, a :: b :: c :: rest, hfix => by
    have ho1 : wordChar Rl.o1 = true := word_of_upper Tl.uo1
    have ho2 : wordChar Rl.o2 = true := word_of_upper Tl.uo2
    have ho3 : wordChar Rl.o3 = true := word_of_upper Tl.uo3
    by_cases hgl : g3 Rl pw a b c rest = true
    · obtain ⟨hpw, hca, hcb, hcc, hnw⟩ := g3_parts hgl
      have hwa : wordChar a = true := wc_of_ci hca Tl.wt1
      have hwb : wordChar b = true := wc_of_ci hcb Tl.wt2
      have hwc : wordChar c = true := wc_of_ci hcc Tl.wt3
      have hfixrest : r3 Rf true rest = rest := fix_tail3 Tf hwa hwb hwc hfix
      rw [r3_pos hgl]
      have hg2 : g3 Rf pw Rl.o1 Rl.o2 Rl.o3 (r3 Rl (wordChar Rl.o3) rest) = false :=
        g3_false_of_cross hc pw _
      rw [r3_neg hg2, ho1, r3_true_cons, ho2, r3_true_cons, ho3,
        r3_pres Tf Tl hc true rest hfixrest]
    · rw [r3_neg (by simpa using hgl)]
      have IH := r3_pres Tf Tl hc (wordChar a) (b :: c :: rest) (fix_tail Tf hfix)
      cases rest with
      | nil =>
        rw [r3_two] at IH ⊢
        exact hfix
      | cons r0 rest' =>
        cases rest' with
        | nil =>
          by_cases hgb : g3 Rl (wordChar a) b c r0 [] = true
          · have hY : r3 Rl (wordChar a) (b :: c :: [r0]) = [Rl.o1, Rl.o2, Rl.o3] := by
              rw [r3_pos hgb, r3_nil]
            rw [hY] at IH ⊢
            rw [r3_skip4 ho3, IH]
          · have hY : r3 Rl (wordChar a) (b :: c :: [r0]) = [b, c, r0] := by
              rw [r3_neg (by simpa using hgb), r3_two]
            rw [hY] at IH ⊢
            exact hfix
        | cons r1 rest2 =>
          by_cases hgb : g3 Rl (wordChar a) b c r0 (r1 :: rest2) = true
          · have hY : r3 Rl (wordChar a) (b :: c :: r0 :: r1 :: rest2) =
                Rl.o1 :: Rl.o2 :: Rl.o3 :: r3 Rl (wordChar Rl.o3) (r1 :: rest2) := r3_pos hgb
            rw [hY] at IH ⊢
            rw [r3_skip4 ho3, IH]
          · have hY1 : r3 Rl (wordChar a) (b :: c :: r0 :: r1 :: rest2) =
                b :: r3 Rl (wordChar b) (c :: r0 :: r1 :: rest2) :=
              r3_neg (by simpa using hgb)
            by_cases hgc : g3 Rl (wordChar b) c r0 r1 rest2 = true
            · have hY2 : r3 Rl (wordChar b) (c :: r0 :: r1 :: rest2) =
                  Rl.o1 :: Rl.o2 :: Rl.o3 :: r3 Rl (wordChar Rl.o3) rest2 := r3_pos hgc
              rw [hY1, hY2] at IH ⊢
              rw [r3_skip4 ho2, IH]
            · have hY2 : r3 Rl (wordChar b) (c :: r0 :: r1 :: rest2) =
                  c :: r3 Rl (wordChar c) (r0 :: r1 :: rest2) := r3_neg (by simpa using hgc)
              rw [hY1, hY2] at IH ⊢
              by_cases hgf : g3 Rf pw a b c (r0 :: r1 :: rest2) = true
              · obtain ⟨ha, hb, hcq, hrest⟩ := fix_self hgf hfix
                have ef3 : wordChar Rf.o3 = true := word_of_upper Tf.uo3
                have hwc : wordChar c = true := by rw [hcq]; exact ef3
                have hfix2 : r3 Rf true (r0 :: r1 :: rest2) = r0 :: r1 :: rest2 := by
                  rwa [ef3] at hrest
                have hgz : g3 Rf pw a b c (r3 Rl (wordChar c) (r0 :: r1 :: rest2)) = true := by
                  rw [g3_congr_rest (r3_nwHead Tl (wordChar c) (r0 :: r1 :: rest2))]
                  exact hgf
                rw [r3_pos hgz, ef3, hwc,
                  r3_pres Tf Tl hc true (r0 :: r1 :: rest2) hfix2, ← ha, ← hb, ← hcq]
              · have hgz : g3 Rf pw a b c (r3 Rl (wordChar c) (r0 :: r1 :: rest2)) = false := by
                  rw [g3_congr_rest (r3_nwHead Tl (wordChar c) (r0 :: r1 :: rest2))]
                  simpa using hgf
                rw [r3_neg hgz, IH]

/-! ### The `\b0\b → O` pass: idempotence and preservation -/

theorem r3_short {R : Rule3} (pw : Bool) : ∀ l : List Char, l.length ≤ 2 → r3 R pw l = l
  | [], _ => rfl
  | [_], _ => rfl
  | [_, _], _ => rfl
  | _ :: _ :: _ :: _, h => by simp at h

theorem r1_idem : ∀ (pw : Bool) (l : List Char), r1 pw (r1 pw l) = r1 pw l
  | _, [] => rfl
  | pw, c :: rest => by
    by_cases hg : g1 pw c rest = true
    · rw [r1_pos hg]
      have hg2 : g1 pw 'O' (r1 (wordChar 'O') rest) = false := by simp [g1]
      rw [r1_neg hg2, r1_idem (wordChar 'O') rest]
    · rw [r1_neg (by simpa using hg)]
      have he : g1 pw c (r1 (wordChar c) rest) = false := by
        rw [g1_congr_rest (r1_nwHead (wordChar c) rest)]
        simpa using hg
      rw [r1_neg he, r1_idem (wordChar c) rest]

theorem r3fix_r1 {R : Rule3} (T : Tame R) : ∀ (pw : Bool) (l : List Char),
    r3 R pw l = l → r3 R pw (r1 pw l) = r1 pw l
  | pw, [], _ => rfl
  | pw, [a], _ => r3_short pw _ (by rw [r1_length]; simp)
  | pw, [a, b], _ => r3_short pw _ (by rw [r1_length]; simp)
  | pw, a :: b :: c :: rest, hfix => by
    by_cases hga : g1 pw a (b :: c :: rest) = true
    · obtain ⟨hpw, ha0, hnwb⟩ := g1_parts hga
      have hwb : wordChar b = false := by simpa [nwHead] using hnwb
      have hcb : ciEq b R.t2 = false := ci_false_of_nonword hwb T.wt2
      have hgf : g3 R pw a b c rest = false := by
        by_cases h : g3 R pw a b c rest = true
        · obtain ⟨h1, _, _, _⟩ := fix_self h hfix
          have e : R.o1 = '0' := by rw [← h1, ha0]
          have : upperL '0' = true := by rw [← e]; exact T.uo1
          exact absurd this (by decide)
        · simpa using h
      have hfix2 := fix_tail T hfix
      have hw0 : wordChar a = true := by rw [ha0]; decide
      rw [hw0, r3_true_cons] at hfix2
      simp only [List.cons.injEq, true_and] at hfix2
      have hwO : wordChar 'O' = true := by decide
      rw [r1_pos hga, hwO, r1_true_cons, r3_skip2 hcb, hwO, r3_true_cons,
        r3fix_r1 T (wordChar b) (c :: rest) hfix2]
    · rw [r1_neg (by simpa using hga)]
      have IH := r3fix_r1 T (wordChar a) (b :: c :: rest) (fix_tail T hfix)
      by_cases hgb : g1 (wordChar a) b (c :: rest) = true
      · obtain ⟨hwa', hb0, hnwc⟩ := g1_parts hgb
        have hwc : wordChar c = false := by simpa [nwHead] using hnwc
        have hcc : ciEq c R.t3 = false := ci_false_of_nonword hwc T.wt3
        have hY : r1 (wordChar a) (b :: c :: rest) = 'O' :: c :: r1 (wordChar c) rest := by
          rw [r1_pos hgb, (by decide : wordChar 'O' = true), r1_true_cons]
        rw [hY] at IH ⊢
        rw [r3_skip3 hcc, IH]
      · have hY : r1 (wordChar a) (b :: c :: rest) = b :: r1 (wordChar b) (c :: rest) :=
          r1_neg (by simpa using hgb)
        by_cases hgc : g1 (wordChar b) c rest = true
        · obtain ⟨hwb', hc0, hnwr⟩ := g1_parts hgc
          have hcb : ciEq b R.t2 = false := ci_false_of_nonword hwb' T.wt2
          have hY2 : r1 (wordChar b) (c :: rest) = 'O' :: r1 (wordChar 'O') rest := r1_pos hgc
          rw [hY, hY2] at IH ⊢
          rw [r3_skip2 hcb, IH]
        · have hY2 : r1 (wordChar b) (c :: rest) = c :: r1 (wordChar c) rest :=
            r1_neg (by simpa using hgc)
          rw [hY, hY2] at IH ⊢
          by_cases hgf : g3 R pw a b c rest = true
          · obtain ⟨ha, hb, hcq, hrest⟩ := fix_self hgf hfix
            have ef3 : wordChar R.o3 = true := word_of_upper T.uo3
            have hwc : wordChar c = true := by rw [hcq]; exact ef3
            have hfix2 : r3 R true rest = rest := by rwa [ef3] at hrest
            have hgz : g3 R pw a b c (r1 (wordChar c) rest) = true := by
              rw [g3_congr_rest (r1_nwHead (wordChar c) rest)]
              exact hgf
            rw [r3_pos hgz, ef3, hwc, r3fix_r1 T true rest hfix2, ← ha, ← hb, ← hcq]
          · have hgz : g3 R pw a b c (r1 (wordChar c) rest) = false := by
              rw [g3_congr_rest (r1_nwHead (wordChar c) rest)]
              simpa using hgf
            rw [r3_neg hgz, IH]

/-! ### The `1`-before-letter pass: idempotence and preservation -/

theorem upper_ne_one {x : Char} (h : upperL x = true) : (x == '1') = false := by
  cases e : x == '1'
  · rfl
  · rw [beq_iff_eq] at e
    subst e
    exact absurd h (by decide)

theorem rOV_upper_cons {x : Char} (hx : upperL x = true) :
    ∀ xs : List Char, rOV (x :: xs) = x :: rOV xs
  | [] => rfl
  | y :: ys => by
    rw [rOV_cons, if_neg (by simp [upper_ne_one hx])]

theorem rOV_notone_cons {x : Char} (hx : (x == '1') = false) :
    ∀ xs : List Char, rOV (x :: xs) = x :: rOV xs
  | [] => rfl
  | y :: ys => by
    rw [rOV_cons, if_neg (by simp [hx])]

theorem rOV_idem : ∀ l : List Char, rOV (rOV l) = rOV l
  | [] => rfl
  | [c] => rfl
  | a :: b :: rest => by
    by_cases hm : (a == '1' && upperL b) = true
    · have hab : (a == '1') = true ∧ upperL b = true := by simpa using hm
      have ha : a = '1' := by rw [← beq_iff_eq]; exact hab.1
      subst ha
      rw [rOV_cons, if_pos hm]
      by_cases hv : vowelU b = true
      · rw [if_pos hv, rOV_cons,
          if_neg (by simp [show (('I' : Char) == '1') = false from by decide]),
          rOV_upper_cons hab.2, rOV_idem rest]
      · rw [if_neg hv, rOV_cons, if_pos (by simp [hab.2]), if_neg hv, rOV_idem rest]
    · rw [rOV_cons, if_neg (by simpa using hm)]
      have IH := rOV_idem (b :: rest)
      by_cases ha : (a == '1') = true
      · have ha' : a = '1' := by rw [← beq_iff_eq]; exact ha
        subst ha'
        have hb : upperL b = false := by
          cases e : upperL b
          · rfl
          · exact absurd (by simp [e] : (('1' : Char) == '1' && upperL b) = true) hm
        by_cases hb1 : (b == '1') = true
        · have hb' : b = '1' := by rw [← beq_iff_eq]; exact hb1
          subst hb'
          cases rest with
          | nil => decide
          | cons r0 rest2 =>
            by_cases hu : upperL r0 = true
            · rw [rOV_cons, if_pos (by simp [hu])]
              by_cases hv : vowelU r0 = true
              · rw [if_pos hv, rOV_cons, if_pos (by decide), if_neg (by decide),
                  rOV_upper_cons hu, rOV_idem rest2]
              · rw [if_neg hv, rOV_cons, if_neg (by decide), rOV_cons,
                  if_pos (by simp [hu]), if_neg hv, rOV_idem rest2]
            · have e : rOV ('1' :: r0 :: rest2) = '1' :: rOV (r0 :: rest2) := by
                rw [rOV_cons, if_neg (by simp [hu])]
              rw [e] at IH ⊢
              rw [rOV_cons, if_neg (by decide), IH]
        · have hb1' : (b == '1') = false := by simpa using hb1
          have e : rOV (b :: rest) = b :: rOV rest := rOV_notone_cons hb1' rest
          rw [e] at IH ⊢
          rw [rOV_cons, if_neg (by simp [hb]), rOV_notone_cons hb1', rOV_idem rest]
      · rw [rOV_notone_cons (by simpa using ha), IH]

theorem r1fix_rOV : ∀ (pw : Bool) (l : List Char), r1 pw l = l → r1 pw (rOV l) = rOV l
  | _, [], _ => rfl
  | _, [c], hfix => by rw [rOV_one]; exact hfix
  | pw, a :: b :: rest, hfix => by
    by_cases hm : (a == '1' && upperL b) = true
    · have hab : (a == '1') = true ∧ upperL b = true := by simpa using hm
      have ha : a = '1' := by rw [← beq_iff_eq]; exact hab.1
      subst ha
      have hga : g1 pw '1' (b :: rest) = false := by simp [g1]
      rw [r1_neg hga] at hfix
      simp only [List.cons.injEq, true_and] at hfix
      rw [(by decide : wordChar '1' = true), r1_true_cons] at hfix
      simp only [List.cons.injEq, true_and] at hfix
      rw [word_of_upper hab.2] at hfix
      rw [rOV_cons, if_pos hm]
      have hx0 : ((if vowelU b then 'I' else '1') == '0') = false := by
        cases hv : vowelU b <;> simp [hv]
      have hwx : wordChar (if vowelU b then 'I' else '1') = true := by
        cases hv : vowelU b <;> simp [hv] <;> decide
      have hg2 : g1 pw (if vowelU b then 'I' else '1') (b :: rOV rest) = false := by
        simp [g1, hx0]
      rw [r1_neg hg2, hwx, r1_true_cons, word_of_upper hab.2, r1fix_rOV true rest hfix]
    · rw [rOV_cons, if_neg (by simpa using hm)]
      by_cases hga : g1 pw a (b :: rest) = true
      · exfalso
        obtain ⟨hpw, ha0, _⟩ := g1_parts hga
        rw [r1_pos hga] at hfix
        simp only [List.cons.injEq] at hfix
        have : ('O' : Char) = '0' := by rw [hfix.1, ha0]
        exact absurd this (by decide)
      · rw [r1_neg (by simpa using hga)] at hfix
        simp only [List.cons.injEq, true_and] at hfix
        have hg2 : g1 pw a (rOV (b :: rest)) = false := by
          rw [g1_congr_rest (rOV_nwHead (b :: rest))]
          simpa using hga
        rw [r1_neg hg2, r1fix_rOV (wordChar a) (b :: rest) hfix]

theorem r3fix_rOV {R : Rule3} (T : Tame R) : ∀ (pw : Bool) (l : List Char),
    r3 R pw l = l → r3 R pw (rOV l) = rOV l
  | pw, [], _ => rfl
  | pw, [a], _ => r3_short pw _ (by rw [rOV_length]; simp)
  | pw, [a, b], _ => r3_short pw _ (by rw [rOV_length]; simp)
  | pw, a :: b :: c :: rest, hfix => by
    by_cases hm : (a == '1' && upperL b) = true
    · have hab : (a == '1') = true ∧ upperL b = true := by simpa using hm
      have ha : a = '1' := by rw [← beq_iff_eq]; exact hab.1
      subst ha
      have hwb : wordChar b = true := word_of_upper hab.2
      have hgf : g3 R pw '1' b c rest = false := by
        by_cases h : g3 R pw '1' b c rest = true
        · obtain ⟨h1, _, _, _⟩ := fix_self h hfix
          have : upperL '1' = true := by rw [h1]; exact T.uo1
          exact absurd this (by decide)
        · simpa using h
      have hfix2 : r3 R true (c :: rest) = c :: rest := by
        have ht := fix_tail T hfix
        rw [(by decide : wordChar '1' = true), r3_true_cons, hwb] at ht
        simp only [List.cons.injEq, true_and] at ht
        exact ht
      have IH := r3fix_rOV T true (c :: rest) hfix2
      rw [rOV_cons, if_pos hm]
      by_cases hv : vowelU b = true
      · rw [if_pos hv, r3_skip1 T.ni1, (by decide : wordChar 'I' = true), r3_true_cons,
          hwb, IH]
      · rw [if_neg hv]
        cases rest with
        | nil =>
          rw [rOV_one]
          exact hfix
        | cons r0 rest2 =>
          by_cases hm3 : (c == '1' && upperL r0) = true
          · have hc3 : (c == '1') = true ∧ upperL r0 = true := by simpa using hm3
            have hc' : c = '1' := by rw [← beq_iff_eq]; exact hc3.1
            have hY : rOV (c :: r0 :: rest2) =
                (if vowelU r0 then 'I' else '1') :: r0 :: rOV rest2 := by
              rw [rOV_cons, if_pos hm3]
            rw [hY] at IH ⊢
            by_cases hv3 : vowelU r0 = true
            · rw [hv3] at IH ⊢
              simp only [if_true] at IH ⊢
              rw [r3_skip3 T.ni3, (by decide : wordChar '1' = true), r3_true_cons, hwb, IH]
            · rw [if_neg hv3] at IH ⊢
              rw [r3_skip4 (word_of_upper hc3.2), (by decide : wordChar '1' = true),
                r3_true_cons, hwb, IH]
          · have hY : rOV (c :: r0 :: rest2) = c :: rOV (r0 :: rest2) := by
              rw [rOV_cons, if_neg (by simpa using hm3)]
            rw [hY] at IH ⊢
            have hgz : g3 R pw '1' b c (rOV (r0 :: rest2)) = false := by
              rw [g3_congr_rest (rOV_nwHead (r0 :: rest2))]
              exact hgf
            rw [r3_neg hgz, (by decide : wordChar '1' = true), r3_true_cons, hwb, IH]
    · rw [rOV_cons, if_neg (by simpa using hm)]
      have IH := r3fix_rOV T (wordChar a) (b :: c :: rest) (fix_tail T hfix)
      by_cases hm2 : (b == '1' && upperL c) = true
      · have hb2 : (b == '1') = true ∧ upperL c = true := by simpa using hm2
        have hb' : b = '1' := by rw [← beq_iff_eq]; exact hb2.1
        have hY : rOV (b :: c :: rest) =
            (if vowelU c then 'I' else '1') :: c :: rOV rest := by
          rw [rOV_cons, if_pos hm2]
        rw [hY] at IH ⊢
        by_cases hv2 : vowelU c = true
        · rw [hv2] at IH ⊢
          simp only [if_true] at IH ⊢
          rw [r3_skip2 T.ni2, IH]
        · rw [if_neg hv2] at IH ⊢
          have hgf : g3 R pw a b c rest = false := by
            by_cases h : g3 R pw a b c rest = true
            · obtain ⟨_, h2, _, _⟩ := fix_self h hfix
              have : upperL '1' = true := by rw [← hb', h2]; exact T.uo2
              exact absurd this (by decide)
            · simpa using h
          have hgz : g3 R pw a '1' c (rOV rest) = false := by
            rw [g3_congr_rest (rOV_nwHead rest), ← hb']
            exact hgf
          rw [r3_neg hgz, IH]
      · cases rest with
        | nil =>
          have hY : rOV (b :: c :: ([] : List Char)) = [b, c] := by
            rw [rOV_cons, if_neg (by simpa using hm2), rOV_one]
          rw [hY]
          exact hfix
        | cons r0 rest2 =>
          have hY1 : rOV (b :: c :: r0 :: rest2) = b :: rOV (c :: r0 :: rest2) := by
            rw [rOV_cons, if_neg (by simpa using hm2)]
          by_cases hm3 : (c == '1' && upperL r0) = true
          · have hc3 : (c == '1') = true ∧ upperL r0 = true := by simpa using hm3
            have hc' : c = '1' := by rw [← beq_iff_eq]; exact hc3.1
            have hY2 : rOV (c :: r0 :: rest2) =
                (if vowelU r0 then 'I' else '1') :: r0 :: rOV rest2 := by
              rw [rOV_cons, if_pos hm3]
            rw [hY1, hY2] at IH ⊢
            by_cases hv3 : vowelU r0 = true
            · rw [hv3] at IH ⊢
              simp only [if_true] at IH ⊢
              rw [r3_skip3 T.ni3, IH]
            · rw [if_neg hv3] at IH ⊢
              rw [r3_skip4 (word_of_upper hc3.2), IH]
          · have hY2 : rOV (c :: r0 :: rest2) = c :: rOV (r0 :: rest2) := by
              rw [rOV_cons, if_neg (by simpa using hm3)]
            rw [hY1, hY2] at IH ⊢
            by_cases hgf : g3 R pw a b c (r0 :: rest2) = true
            · obtain ⟨ha, hb, hcq, hrest⟩ := fix_self hgf hfix
              have ef3 : wordChar R.o3 = true := word_of_upper T.uo3
              have hfix3 : r3 R true (r0 :: rest2) = r0 :: rest2 := by rwa [ef3] at hrest
              have hgz : g3 R pw a b c (rOV (r0 :: rest2)) = true := by
                rw [g3_congr_rest (rOV_nwHead (r0 :: rest2))]
                exact hgf
              rw [r3_pos hgz, ef3, r3fix_rOV T true (r0 :: rest2) hfix3, ← ha, ← hb, ← hcq]
            · have hgz : g3 R pw a b c (rOV (r0 :: rest2)) = false := by
                rw [g3_congr_rest (rOV_nwHead (r0 :: rest2))]
                simpa using hgf
              rw [r3_neg hgz, IH]

/-! ### Assembly: `normalizeOCRText` is idempotent and length-preserving -/

theorem applyRules_fixed : ∀ (Rs : List Rule3) (x : List Char),
    (∀ R ∈ Rs, r3 R false x = x) → applyRules Rs x = x
  | [], _, _ => rfl
  | R :: Rs, x, h => by
    simp only [applyRules]
    rw [h R (List.mem_cons_self R Rs)]
    exact applyRules_fixed Rs x (fun R' hR' => h R' (List.mem_cons_of_mem R hR'))

theorem fix_applyRules {Rf : Rule3} (Tf : Tame Rf) :
    ∀ (Rs : List Rule3), (∀ R' ∈ Rs, Tame R' ∧ cross Rf R' = false) →
      ∀ l, r3 Rf false l = l → r3 Rf false (applyRules Rs l) = applyRules Rs l
  | [], _, _, h => h
  | R :: Rs, hall, l, h => by
    simp only [applyRules]
    exact fix_applyRules Tf Rs
      (fun R' hR' => hall R' (List.mem_cons_of_mem R hR'))
      (r3 R false l)
      (r3_pres Tf (hall R (List.mem_cons_self R Rs)).1
        (hall R (List.mem_cons_self R Rs)).2 false l h)

theorem fix_all_applyRules : ∀ (Rs : List Rule3),
    (∀ R ∈ Rs, Tame R) → Rs.Pairwise (fun A B => cross A B = false) →
    ∀ (l : List Char), ∀ R ∈ Rs,
      r3 R false (applyRules Rs l) = applyRules Rs l
  | [], _, _, _, R, hR => absurd hR (List.not_mem_nil R)
  | R0 :: Rs, hT, hP, l, R, hR => by
    simp only [applyRules]
    rcases List.mem_cons.mp hR with rfl | hR'
    · exact fix_applyRules (hT R (List.mem_cons_self R Rs)) Rs
        (fun R' hR' => ⟨hT R' (List.mem_cons_of_mem _ hR'),
          (List.pairwise_cons.mp hP).1 R' hR'⟩)
        (r3 R false l)
        (r3_idem (hT R (List.mem_cons_self R Rs)) false l)
    · exact fix_all_applyRules Rs (fun R' h => hT R' (List.mem_cons_of_mem _ h))
        (List.pairwise_cons.mp hP).2 (r3 R0 false l) R hR'

theorem tame_of_mem : ∀ R ∈ ocrMonthRules, Tame R := by
  intro R hR
  simp only [ocrMonthRules, List.mem_cons, List.not_mem_nil, or_false] at hR
  rcases hR with rfl | rfl | rfl | rfl | rfl | rfl | rfl | rfl | rfl | rfl | rfl | rfl | rfl
  exacts [tame_ruleOCT, tame_rule1AN, tame_ruleFEB, tame_ruleMAR, tame_ruleAPR,
    tame_ruleMAY, tame_rule1UN, tame_rule1UL, tame_ruleAUG, tame_ruleSEP,
    tame_ruleOCT, tame_ruleN0V, tame_ruleDEC]

theorem pairwise_cross : ocrMonthRules.Pairwise (fun A B => cross A B = false) := by
  decide

theorem normalizeOCRTextL_idem (l : List Char) :
    normalizeOCRTextL (normalizeOCRTextL l) = normalizeOCRTextL l := by
  have hfixall : ∀ R ∈ ocrMonthRules,
      r3 R false (normalizeOCRTextL l) = normalizeOCRTextL l := fun R hR =>
    r3fix_rOV (tame_of_mem R hR) false _
      (r3fix_r1 (tame_of_mem R hR) false _
        (fix_all_applyRules ocrMonthRules tame_of_mem pairwise_cross l R hR))
  have e1 : applyRules ocrMonthRules (normalizeOCRTextL l) = normalizeOCRTextL l :=
    applyRules_fixed _ _ hfixall
  have e2 : r1 false (normalizeOCRTextL l) = normalizeOCRTextL l := by
    show r1 false (rOV (r1 false (monthPasses l))) = _
    exact r1fix_rOV false _ (r1_idem false (monthPasses l))
  have e3 : rOV (normalizeOCRTextL l) = normalizeOCRTextL l := by
    show rOV (rOV (r1 false (monthPasses l))) = _
    exact rOV_idem _
  show rOV (r1 false (applyRules ocrMonthRules (normalizeOCRTextL l))) = normalizeOCRTextL l
  rw [e1, e2, e3]

theorem applyRules_length : ∀ (Rs : List Rule3) (l : List Char),
    (applyRules Rs l).length = l.length
  | [], _ => rfl
  | R :: Rs, l => by
    simp only [applyRules]
    rw [applyRules_length Rs (r3 R false l), r3_length]

theorem normalizeOCRTextL_length (l : List Char) :
    (normalizeOCRTextL l).length = l.length := by
  unfold normalizeOCRTextL monthPasses
  rw [rOV_length, r1_length, applyRules_length]

/-! ### Regular-expression combinators

Each JS regex of the source is embedded as a backtracking matcher in
continuation-passing style.  Alternatives are tried left to right and
quantifiers are greedy (longest first), exactly as the JS engine does;
the first overall success wins. -/

/-- Digit class `[0-9]` / `\d`. -/
def isDigitC (c : Char) : Bool := 48 ≤ c.toNat && c.toNat ≤ 57

/-- Separator class `[\/\-\.]`. -/
def isSep (c : Char) : Bool := c == '/' || c == '-' || c == '.'

/-- JS `\s` (ASCII part). -/
def isSpace (c : Char) : Bool :=
  c == ' ' || c == '\t' || c == '\n' || c == '\r' || c == '\x0b' || c == '\x0c'

/-- Class `[\/\-\.\s]`. -/
def isSepSp (c : Char) : Bool := isSep c || isSpace c

/-- Lower-case ASCII letter. -/
def isLower (c : Char) : Bool := 97 ≤ c.toNat && c.toNat ≤ 122

/-- Class `[A-Z]` under the `i` flag: any ASCII letter. -/
def isLetterCI (c : Char) : Bool := upperL c || isLower c

/-- Class `[A-Z0-9]` under the `i` flag. -/
def isAlnum (c : Char) : Bool := isLetterCI c || isDigitC c

/-- Class `[\s:]`. -/
def isSpColon (c : Char) : Bool := isSpace c || c == ':'

/-- Class `[\/\s]`. -/
def isSlashSp (c : Char) : Bool := c == '/' || isSpace c

/-- Class `[A-Z\/\s]` under the `i` flag. -/
def isLetterSlashSpCI (c : Char) : Bool := isLetterCI c || c == '/' || isSpace c

/-- Class `[A-Z\s]` under the `i` flag. -/
def isLetterSpCI (c : Char) : Bool := isLetterCI c || isSpace c

/-- The characters consumed between suffix `l0` and suffix `l1` (used to
recover a capture group). -/
def cap (l0 l1 : List Char) : List Char := l0.take (l0.length - l1.length)

/-- Greedy bounded repetition `p{lo,hi}`: consume up to `hi` matching
characters preferring longer runs, never fewer than `lo`, then call the
continuation; backtrack on its failure. -/
def greedy (p : Char → Bool) : (lo hi : Nat) → List Char →
    (List Char → Option α) → Option α
  | lo, 0, l, k => if lo == 0 then k l else none
  | lo, _ + 1, [], k => if lo == 0 then k [] else none
  | lo, hi + 1, c :: cs, k =>
    if p c then
      (greedy p (lo - 1) hi cs k).orElse fun _ =>
        if lo == 0 then k (c :: cs) else none
    else if lo == 0 then k (c :: cs) else none

/-- Greedy unbounded repetition `p*`. -/
def greedyStar (p : Char → Bool) : List Char → (List Char → Option α) → Option α
  | [], k => k []
  | c :: cs, k =>
    if p c then (greedyStar p cs k).orElse fun _ => k (c :: cs)
    else k (c :: cs)

/-- Greedy repetition `p+`. -/
def greedyPlus (p : Char → Bool) (l : List Char) (k : List Char → Option α) : Option α :=
  match l with
  | c :: cs => if p c then greedyStar p cs k else none
  | [] => none

/-- Exactly `n` characters of a class. -/
def exactN (p : Char → Bool) : Nat → List Char → (List Char → Option α) → Option α
  | 0, l, k => k l
  | n + 1, c :: cs, k => if p c then exactN p n cs k else none
  | _ + 1, [], _ => none

/-- Greedy repetition `p{lo,}`. -/
def greedyAtLeast (p : Char → Bool) (lo : Nat) (l : List Char)
    (k : List Char → Option α) : Option α :=
  exactN p lo l fun l1 => greedyStar p l1 k

/-- Case-insensitive literal. -/
def litCI : List Char → List Char → (List Char → Option α) → Option α
  | [], l, k => k l
  | t :: ts, c :: cs, k => if ciEq c t then litCI ts cs k else none
  | _ :: _, [], _ => none

/-- One separator character `[\/\-\.]`. -/
def matchSep (l : List Char) (k : List Char → Option α) : Option α :=
  match l with
  | c :: cs => if isSep c then k cs else none
  | [] => none

/-- Optional character, exact (`x?`), greedy. -/
def optChar (t : Char) (l : List Char) (k : List Char → Option α) : Option α :=
  match l with
  | c :: cs => if c == t then (k cs).orElse fun _ => k (c :: cs) else k (c :: cs)
  | [] => k []

/-- Optional character, case-insensitive (`x?` under `i`), greedy. -/
def optCharCI (t : Char) (l : List Char) (k : List Char → Option α) : Option α :=
  match l with
  | c :: cs => if ciEq c t then (k cs).orElse fun _ => k (c :: cs) else k (c :: cs)
  | [] => k []

/-- Case-insensitive alternation of literals, tried left to right. -/
def altLitCI : List (List Char) → List Char → (List Char → Option α) → Option α
  | [], _, _ => none
  | t :: ts, l, k => (litCI t l k).orElse fun _ => altLitCI ts l k

/-- A sequence of case-insensitive words joined by `\s+`. -/
def matchWordsCI : List (List Char) → List Char → (List Char → Option α) → Option α
  | [], l, k => k l
  | [w], l, k => litCI w l k
  | w :: ws, l, k => litCI w l fun l1 => greedyPlus isSpace l1 fun l2 => matchWordsCI ws l2 k

/-- Alternation over word sequences, tried left to right. -/
def altWordsCI : List (List (List Char)) → List Char → (List Char → Option α) → Option α
  | [], _, _ => none
  | alt :: alts, l, k => (matchWordsCI alt l k).orElse fun _ => altWordsCI alts l k

/-- `String.prototype.match` (non-global): try the position matcher at
every position left to right, first success wins; `pw` threads the
word-boundary context. -/
def findFirstPos (m : Bool → List Char → Option α) : Bool → List Char → Option α
  | pw, [] => m pw []
  | pw, c :: cs =>
    match m pw (c :: cs) with
    | some r => some r
    | none => findFirstPos m (wordChar c) cs

/-- `String.prototype.matchAll`: collect the consumed text of each
non-overlapping match, scanning left to right and resuming right after
each match.  `fuel` bounds the recursion (matches always consume at least
one character). -/
def scanAll (m : Bool → List Char → Option (List Char)) : Nat → Bool → List Char →
    List (List Char)
  | 0, _, _ => []
  | _ + 1, _, [] => []
  | fuel + 1, pw, c :: cs =>
    match m pw (c :: cs) with
    | some rem =>
      let consumed := (c :: cs).take ((c :: cs).length - rem.length)
      consumed :: scanAll m fuel (wordChar (consumed.getLastD c)) rem
    | none => scanAll m fuel (wordChar c) cs

/-- All matches of one pattern in a string. -/
def matchAllL (m : Bool → List Char → Option (List Char)) (l : List Char) :
    List (List Char) :=
  scanAll m l.length false l

/-- `String.prototype.trim` (ASCII whitespace). -/
def trimL (l : List Char) : List Char :=
  ((l.dropWhile isSpace).reverse.dropWhile isSpace).reverse

/-- First index of a substring (`String.prototype.indexOf`). -/
def idxOfAux (needle : List Char) : Nat → List Char → Option Nat
  | i, [] => if needle.isEmpty then some i else none
  | i, c :: cs => if needle.isPrefixOf (c :: cs) then some i else idxOfAux needle (i + 1) cs

/-- `hay.indexOf(needle)`, `none` for `-1`. -/
def idxOf? (hay needle : List Char) : Option Nat := idxOfAux needle 0 hay

/-- `String.prototype.substring` with JS clamping and argument swapping. -/
def jsSubstring (l : List Char) (a b : Nat) : List Char :=
  let a' := min a l.length
  let b' := min b l.length
  ((l.drop (min a' b')).take (max a' b' - min a' b'))

/-! ### The date candidate finder (`extractAllDates`, ocr.ts 79-121) -/

/-- Pattern `\b(\d{1,2})[\/\-\.](\d{1,2})[\/\-\.](\d{2,4})\b`. -/
def datePat1 (pw : Bool) (l : List Char) : Option (List Char) :=
  if pw then none else
  greedy isDigitC 1 2 l fun l1 =>
  matchSep l1 fun l2 =>
  greedy isDigitC 1 2 l2 fun l3 =>
  matchSep l3 fun l4 =>
  greedy isDigitC 2 4 l4 fun l5 =>
  if nwHead l5 then some l5 else none

/-- Pattern `\b(\d{4})[\/\-\.](\d{1,2})[\/\-\.](\d{1,2})\b`. -/
def datePat2 (pw : Bool) (l : List Char) : Option (List Char) :=
  if pw then none else
  greedy isDigitC 4 4 l fun l1 =>
  matchSep l1 fun l2 =>
  greedy isDigitC 1 2 l2 fun l3 =>
  matchSep l3 fun l4 =>
  greedy isDigitC 1 2 l4 fun l5 =>
  if nwHead l5 then some l5 else none

/-- Pattern `\b(\d{1,2})[\/\-\.\s]+([A-Z0-9]{3})[\/\-\.\s]+(\d{2,4})\b` (`i`). -/
def datePat3 (pw : Bool) (l : List Char) : Option (List Char) :=
  if pw then none else
  greedy isDigitC 1 2 l fun l1 =>
  greedyPlus isSepSp l1 fun l2 =>
  greedy isAlnum 3 3 l2 fun l3 =>
  greedyPlus isSepSp l3 fun l4 =>
  greedy isDigitC 2 4 l4 fun l5 =>
  if nwHead l5 then some l5 else none

/-- Pattern `\b(\d{1,2})\s+([A-Z0-9]{3})\s+(\d{2,4})\b` (`i`). -/
def datePat4 (pw : Bool) (l : List Char) : Option (List Char) :=
  if pw then none else
  greedy isDigitC 1 2 l fun l1 =>
  greedyPlus isSpace l1 fun l2 =>
  greedy isAlnum 3 3 l2 fun l3 =>
  greedyPlus isSpace l3 fun l4 =>
  greedy isDigitC 2 4 l4 fun l5 =>
  if nwHead l5 then some l5 else none

/-- The twelve full month names of the fifth pattern. -/
def monthFullNames : List (List Char) :=
  ["JANUARY".data, "FEBRUARY".data, "MARCH".data, "APRIL".data, "MAY".data,
   "JUNE".data, "JULY".data, "AUGUST".data, "SEPTEMBER".data, "OCTOBER".data,
   "NOVEMBER".data, "DECEMBER".data]

/-- Pattern `\b(\d{1,2})\s+(JANUARY|…|DECEMBER)\s+(\d{2,4})\b` (`i`). -/
def datePat5 (pw : Bool) (l : List Char) : Option (List Char) :=
  if pw then none else
  greedy isDigitC 1 2 l fun l1 =>
  greedyPlus isSpace l1 fun l2 =>
  altLitCI monthFullNames l2 fun l3 =>
  greedyPlus isSpace l3 fun l4 =>
  greedy isDigitC 2 4 l4 fun l5 =>
  if nwHead l5 then some l5 else none

/-- The fixed pattern table of `extractAllDates`, in source order. -/
def datePatterns : List (Bool → List Char → Option (List Char)) :=
  [datePat1, datePat2, datePat3, datePat4, datePat5]

/-- Second pass of `extractAllDates` over the original text: a trimmed
match is appended only if not already collected (the accumulator grows as
matches are appended, as `dates.includes` does in the source). -/
def dedupAppend (acc : List (List Char)) (ms : List (List Char)) : List (List Char) :=
  ms.foldl (fun acc2 m =>
    let t := trimL m
    if acc2.contains t then acc2 else acc2 ++ [t]) acc

/-- The first pass of `extractAllDates`: every pattern over the
normalized text, all (trimmed) matches collected without deduplication. -/
def normPassDates (ps : List (Bool → List Char → Option (List Char)))
    (normalized : List Char) : List (List Char) :=
  match ps with
  | [] => []
  | p :: ps => (matchAllL p normalized).map trimL ++ normPassDates ps normalized

/-- The second pass of `extractAllDates` over the original text, growing
the accumulated list with deduplication. -/
def origPassDates (ps : List (Bool → List Char → Option (List Char)))
    (acc : List (List Char)) (text : List Char) : List (List Char) :=
  match ps with
  | [] => acc
  | p :: ps => origPassDates ps (dedupAppend acc (matchAllL p text)) text

/-- `extractAllDates` (ocr.ts lines 79-121): run every pattern over the
normalized text collecting all (trimmed) matches without deduplication,
then, when normalization changed the text, run every pattern over the
original text appending only matches not already present. -/
def extractAllDatesL (text : List Char) : List (List Char) :=
  if text ≠ normalizeOCRTextL text then
    origPassDates datePatterns (normPassDates datePatterns (normalizeOCRTextL text)) text
  else normPassDates datePatterns (normalizeOCRTextL text)

/-- `extractAllDates` on strings. -/
def extractAllDates (s : String) : List String :=
  (extractAllDatesL s.data).map (⟨·⟩)

example : extractAllDates "15 JAN 1990" = ["15 JAN 1990", "15 JAN 1990"] := by decide

/-! ### Calendar arithmetic and `parseDate` (ocr.ts 489-647) -/

/-- `parseInt` on a digit string. -/
def digitsToNat (l : List Char) : Nat := l.foldl (fun n c => n * 10 + (c.toNat - 48)) 0

/-- Gregorian leap year, as the JS `Date` object computes it. -/
def isLeap (y : Nat) : Bool := y % 4 == 0 && (y % 100 != 0 || y % 400 == 0)

/-- Days in a month of the Gregorian calendar. -/
def daysInMonth (y m : Nat) : Nat :=
  if m == 2 then (if isLeap y then 29 else 28)
  else if m == 4 || m == 6 || m == 9 || m == 11 then 30
  else 31

/-- `isValidDateComponents` (ocr.ts lines 626-638).  The source performs
the cheap range checks and then a `new Date(year, month - 1, day)`
round-trip; with year, month and day already confined to
`1900..2100 × 1..12 × 1..31` the round-trip succeeds exactly when the day
does not overflow the month. -/
def isValidDateComponents (y m d : Nat) : Bool :=
  if y < 1900 || 2100 < y then false
  else if m < 1 || 12 < m then false
  else if d < 1 || 31 < d then false
  else d ≤ daysInMonth y m

/-- Decimal digits of a number (`String(n)`). -/
def natToChars (n : Nat) : List Char := (Nat.repr n).data

/-- `String(n).padStart(2, '0')`. -/
def pad2 (n : Nat) : List Char :=
  let s := natToChars n
  if s.length < 2 then '0' :: s else s

/-- `formatDate` (ocr.ts lines 643-647): `YYYY-MM-DD` with the year left
unpadded and month/day zero-padded to two digits. -/
def formatDateL (y m d : Nat) : List Char :=
  natToChars y ++ '-' :: (pad2 m ++ '-' :: pad2 d)

/-- The twelve three-letter month names of `parseDate`, in order. -/
def monthNames : List (List Char) :=
  ["JAN".data, "FEB".data, "MAR".data, "APR".data, "MAY".data, "JUN".data,
   "JUL".data, "AUG".data, "SEP".data, "OCT".data, "NOV".data, "DEC".data]

/-- `monthNames.indexOf(monthName) + 1` (zero when absent). -/
def monthNumber (mn : List Char) : Nat :=
  match monthNames.indexOf? mn with
  | some i => i + 1
  | none => 0

/-- Pointwise case-insensitive equality of strings of the same length. -/
def ciEqL : List Char → List Char → Bool
  | [], [] => true
  | a :: as, b :: bs => ciEq a b && ciEqL as bs
  | _, _ => false

/-- The month-token OCR corrections applied inside `parseDate`
(`.replace(/0CT/i, 'OCT')` and so on): these are unanchored
case-insensitive single replacements, but the argument is always a
three-character token, where an occurrence of a three-character pattern is
the whole token. -/
def fixMonthToken (mn : List Char) : List Char :=
  if ciEqL mn "0CT".data then "OCT".data
  else if ciEqL mn "1AN".data then "JAN".data
  else if ciEqL mn "1UN".data then "JUN".data
  else if ciEqL mn "1UL".data then "JUL".data
  else if ciEqL mn "N0V".data then "NOV".data
  else mn

/-- Two-digit year disambiguation: `<50 → 2000s`, `≥50 → 1900s`. -/
def fixYear (y : Nat) : Nat :=
  if y < 100 then (if y < 50 then 2000 + y else 1900 + y) else y

/-- Anchored pattern `^(\d{1,2})\s+([A-Z0-9]{3})\s+(\d{2,4})$` with its
three capture groups. -/
def matchSpaceSep (l : List Char) : Option (List Char × List Char × List Char) :=
  greedy isDigitC 1 2 l fun l1 =>
  greedyPlus isSpace l1 fun l2 =>
  greedy isAlnum 3 3 l2 fun l3 =>
  greedyPlus isSpace l3 fun l4 =>
  greedy isDigitC 2 4 l4 fun l5 =>
  if l5.isEmpty then some (cap l l1, cap l2 l3, cap l4 l5) else none

/-- Anchored pattern `^(\d{4})[\/\-\.](\d{1,2})[\/\-\.](\d{1,2})$`. -/
def matchYMD (l : List Char) : Option (List Char × List Char × List Char) :=
  greedy isDigitC 4 4 l fun l1 =>
  matchSep l1 fun l2 =>
  greedy isDigitC 1 2 l2 fun l3 =>
  matchSep l3 fun l4 =>
  greedy isDigitC 1 2 l4 fun l5 =>
  if l5.isEmpty then some (cap l l1, cap l2 l3, cap l4 l5) else none

/-- Anchored pattern `^(\d{1,2})[\/\-\.](\d{1,2})[\/\-\.](\d{2,4})$`. -/
def matchDMY (l : List Char) : Option (List Char × List Char × List Char) :=
  greedy isDigitC 1 2 l fun l1 =>
  matchSep l1 fun l2 =>
  greedy isDigitC 1 2 l2 fun l3 =>
  matchSep l3 fun l4 =>
  greedy isDigitC 2 4 l4 fun l5 =>
  if l5.isEmpty then some (cap l l1, cap l2 l3, cap l4 l5) else none

/-- Anchored pattern `^(\d{1,2})[\/\-\.]+([A-Z0-9]{3})[\/\-\.]+(\d{2,4})$`. -/
def matchTextDate (l : List Char) : Option (List Char × List Char × List Char) :=
  greedy isDigitC 1 2 l fun l1 =>
  greedyPlus isSep l1 fun l2 =>
  greedy isAlnum 3 3 l2 fun l3 =>
  greedyPlus isSep l3 fun l4 =>
  greedy isDigitC 2 4 l4 fun l5 =>
  if l5.isEmpty then some (cap l l1, cap l2 l3, cap l4 l5) else none

/-- The `DD MMM YYYY` / `DD-MMM-YYYY` branches of `parseDate` share this
evaluation: day from group 1, month resolved from group 2 (upper-cased,
OCR-corrected) through the month table, year from group 3 with the
two-digit fix; the month must resolve and the triple must validate. -/
def parseMonthNameBranch (g1 g2 g3 : List Char) : Option (List Char) :=
  if monthNumber (fixMonthToken (g2.map upC)) > 0 &&
      isValidDateComponents (fixYear (digitsToNat g3))
        (monthNumber (fixMonthToken (g2.map upC))) (digitsToNat g1) then
    some (formatDateL (fixYear (digitsToNat g3))
      (monthNumber (fixMonthToken (g2.map upC))) (digitsToNat g1))
  else none

/-- The `DD/MM`-vs-`MM/DD` branch of `parseDate` (ocr.ts lines 552-591).
`k` is the value produced by falling through to the `DD-MMM-YYYY` attempt;
the ambiguous both-invalid case returns `null` directly without falling
through, exactly as the source's early `return null` does. -/
def parseDMYBranch (part1 part2 yraw : Nat) (k : Option (List Char)) :
    Option (List Char) :=
  if part1 > 12 then
    if isValidDateComponents (fixYear yraw) part2 part1 then
      some (formatDateL (fixYear yraw) part2 part1)
    else k
  else if part2 > 12 then
    if isValidDateComponents (fixYear yraw) part1 part2 then
      some (formatDateL (fixYear yraw) part1 part2)
    else k
  else if isValidDateComponents (fixYear yraw) part2 part1 then
    some (formatDateL (fixYear yraw) part2 part1)
  else if isValidDateComponents (fixYear yraw) part1 part2 then
    some (formatDateL (fixYear yraw) part1 part2)
  else none

/-- The final `DD-MMM-YYYY` attempt of `parseDate` (ocr.ts lines 594-617). -/
def parseTextDateStep (cleanDate : List Char) : Option (List Char) :=
  match matchTextDate cleanDate with
  | some (g1, g2, g3) => parseMonthNameBranch g1 g2 g3
  | none => none

/-- The `DD MMM YYYY` attempt of `parseDate` (ocr.ts lines 509-533). -/
def parseSpaceStep (normalizedDate : List Char) : Option (List Char) :=
  match matchSpaceSep normalizedDate with
  | some (g1, g2, g3) => parseMonthNameBranch g1 g2 g3
  | none => none

/-- The `YYYY-MM-DD` attempt of `parseDate` (ocr.ts lines 539-549). -/
def parseYMDStep (cleanDate : List Char) : Option (List Char) :=
  match matchYMD cleanDate with
  | some (g1, g2, g3) =>
    if isValidDateComponents (digitsToNat g1) (digitsToNat g2) (digitsToNat g3) then
      some (formatDateL (digitsToNat g1) (digitsToNat g2) (digitsToNat g3))
    else none
  | none => none

/-- The numeric `DD/MM`-or-`MM/DD` attempt with its fall-through to the
`DD-MMM-YYYY` attempt (ocr.ts lines 552-617). -/
def parseDMYStep (cleanDate : List Char) : Option (List Char) :=
  match matchDMY cleanDate with
  | some (g1, g2, g3) =>
    parseDMYBranch (digitsToNat g1) (digitsToNat g2) (digitsToNat g3)
      (parseTextDateStep cleanDate)
  | none => parseTextDateStep cleanDate

/-- `parseDate` (ocr.ts lines 493-621): normalize the trimmed candidate,
try `DD MMM YYYY`, then (spaces removed) `YYYY-MM-DD`, then numeric
`DD/MM` with disambiguation, then separator-joined `DD-MMM-YYYY`; every
produced triple is validated by `isValidDateComponents` before being
formatted. -/
def parseDateL (dateStr : List Char) : Option (List Char) :=
  if (trimL dateStr).isEmpty then none
  else
    match parseSpaceStep (normalizeOCRTextL (trimL dateStr)) with
    | some r => some r
    | none =>
      match parseYMDStep ((normalizeOCRTextL (trimL dateStr)).filter (fun c => !isSpace c)) with
      | some r => some r
      | none => parseDMYStep ((normalizeOCRTextL (trimL dateStr)).filter (fun c => !isSpace c))

/-- `parseDate` on strings. -/
def parseDate (s : String) : Option String := (parseDateL s.data).map (⟨·⟩)

example : parseDate "15 JAN 1990" = some "1990-01-15" := by decide
example : parseDate "17 0CT 2001" = some "2001-10-17" := by decide
example : parseDate "05/03/1990" = some "1990-03-05" := by decide
example : parseDate "13/02/1990" = some "1990-02-13" := by decide
example : parseDate "2024-02-29" = some "2024-02-29" := by decide
example : parseDate "2023-02-29" = none := by decide
example : parseDate "29/02/2024" = some "2024-02-29" := by decide
example : parseDate "31/04/2000" = none := by decide
example : parseDate "15-Jan-90" = some "1990-01-15" := by decide

/-! ### The plausibility filter and birthdate resolver (ocr.ts 123-269) -/

/-- A calendar date.  The ambient current date that `isValidBirthdate`
reads through `new Date()` is passed around explicitly as a value of this
type, making the engine's clock dependence visible in the model. -/
structure SimpleDate where
  year : Nat
  month : Nat
  day : Nat
deriving DecidableEq, Repr

/-- Strict chronological order of calendar dates. -/
def dateLt (a b : SimpleDate) : Bool :=
  a.year < b.year || (a.year == b.year && (a.month < b.month ||
    (a.month == b.month && a.day < b.day)))

/-- The day after a date. -/
def nextDay (d : SimpleDate) : SimpleDate :=
  if d.day < daysInMonth d.year d.month then ⟨d.year, d.month, d.day + 1⟩
  else if d.month < 12 then ⟨d.year, d.month + 1, 1⟩
  else ⟨d.year + 1, 1, 1⟩

/-- `new Date(dateStr)` restricted to the ISO `YYYY-MM-DD` date-only
strings the engine feeds it (outputs of `formatDate`): four digits, dash,
two digits, dash, two digits, month `1..12`, day `1..31`; a day
overflowing its month rolls into the next month as JS `MakeDay` does.
Anything else is an invalid date (`NaN`). -/
def jsParseISO (l : List Char) : Option SimpleDate :=
  match l with
  | [y1, y2, y3, y4, s1, m1, m2, s2, d1, d2] =>
    if isDigitC y1 && isDigitC y2 && isDigitC y3 && isDigitC y4 && s1 == '-' &&
       isDigitC m1 && isDigitC m2 && s2 == '-' && isDigitC d1 && isDigitC d2 then
      let y := digitsToNat [y1, y2, y3, y4]
      let m := digitsToNat [m1, m2]
      let d := digitsToNat [d1, d2]
      if 1 ≤ m && m ≤ 12 && 1 ≤ d && d ≤ 31 then
        some (if d ≤ daysInMonth y m then ⟨y, m, d⟩ else ⟨y, m + 1, d - daysInMonth y m⟩)
      else none
    else none
  | _ => none

/-- `isValidBirthdate` (ocr.ts lines 232-269) with the ambient clock as an
explicit `today`.  The candidate must parse, be at most one day in the
future (timezone tolerance), not lie before 1900-01-01, and imply an age
between 0 and 150 with the usual has-the-birthday-passed adjustment. -/
def isValidBirthdate (today : SimpleDate) (dateStr : List Char) : Bool :=
  match jsParseISO dateStr with
  | none => false
  | some d =>
    if dateLt (nextDay today) d then false
    else if dateLt d ⟨1900, 1, 1⟩ then false
    else
      let age : Int := (today.year : Int) - (d.year : Int)
      let monthDiff : Int := (today.month : Int) - (d.month : Int)
      let actualAge : Int :=
        if monthDiff < 0 || (monthDiff == 0 && today.day < d.day) then age - 1 else age
      0 ≤ actualAge && actualAge ≤ 150

/-- The fixed birthdate keyword list (ocr.ts lines 134-145), in order. -/
def birthdateKeywords : List (List Char) :=
  ["DATE OF BIRTH".data, "DOB".data, "BIRTH DATE".data, "BORN".data, "BIRTH".data,
   "DATE OF BIRTH:".data, "DOB:".data, "BIRTHDATE".data, "BIRTH DATE:".data,
   "BORN:".data]

/-- The inner candidate loop of the keyword phase: return the first
candidate that parses and passes the plausibility filter. -/
def firstValidDate (today : SimpleDate) : List (List Char) → Option (List Char)
  | [] => none
  | d :: ds =>
    match parseDateL d with
    | some p => if isValidBirthdate today p then some p else firstValidDate today ds
    | none => firstValidDate today ds

/-- The keyword loop of `findBirthdate` (ocr.ts lines 148-168): for each
keyword in list order, find its FIRST occurrence (`indexOf`) in the
normalized upper-cased text, slice a window (75 characters before the
keyword, 150 after it) out of the ORIGINAL text at those indices, and
return the first plausible date extracted from the window. -/
def keywordLoop (today : SimpleDate) (originalText normalizedText : List Char) :
    List (List Char) → Option (List Char)
  | [] => none
  | kw :: kws =>
    match idxOf? normalizedText kw with
    | some keywordIndex =>
      let start := keywordIndex - 75
      let stop := min originalText.length (keywordIndex + kw.length + 150)
      let context := jsSubstring originalText start stop
      match firstValidDate today (extractAllDatesL context) with
      | some p => some p
      | none => keywordLoop today originalText normalizedText kws
    | none => keywordLoop today originalText normalizedText kws

/-- The keyword-proximity phase of `findBirthdate`. -/
def keywordScanL (today : SimpleDate) (text : List Char) : Option (List Char) :=
  keywordLoop today text ((normalizeOCRTextL text).map upC) birthdateKeywords

/-- Lexicographic comparison of strings by code point, the default
comparison of JS `Array.prototype.sort`. -/
def lexLe : List Char → List Char → Bool
  | [], _ => true
  | _ :: _, [] => false
  | a :: as, b :: bs =>
    if a.toNat < b.toNat then true
    else if b.toNat < a.toNat then false
    else lexLe as bs

/-- Insertion into a sorted list. -/
def insertSorted (x : List Char) : List (List Char) → List (List Char)
  | [] => [x]
  | y :: ys => if lexLe x y then x :: y :: ys else y :: insertSorted x ys

/-- `Array.prototype.sort()` with the default string comparison
(insertion sort; `sort` is only used for its order here). -/
def sortJS : List (List Char) → List (List Char)
  | [] => []
  | x :: xs => insertSorted x (sortJS xs)

/-- The whole-document fallback of `findBirthdate` (ocr.ts lines
175-226): parse every candidate found anywhere in the text, keep those
passing the plausibility filter, sort the canonical strings and return
the first (the diagnostic bookkeeping of the source is logging only). -/
def fallbackScan (today : SimpleDate) (text : List Char) : Option (List Char) :=
  let allDates := extractAllDatesL text
  let validBirthdates := (allDates.filterMap parseDateL).filter (isValidBirthdate today)
  if validBirthdates.isEmpty then none
  else (sortJS validBirthdates).head?

/-- `findBirthdate` (ocr.ts lines 128-227). -/
def findBirthdateL (today : SimpleDate) (text : List Char) : Option (List Char) :=
  match keywordScanL today text with
  | some p => some p
  | none => fallbackScan today text

/-- `findBirthdate` on strings. -/
def findBirthdate (today : SimpleDate) (s : String) : Option String :=
  (findBirthdateL today s.data).map (⟨·⟩)

/-- A fixed reference evaluation date used to instantiate the explicit
`today` parameter in concrete computations. -/
def refToday : SimpleDate := ⟨2026, 10, 11⟩

example :
    findBirthdate refToday "PASSPORT JOHN SMITH NATIONALITY KEN DATE OF BIRTH: 15 JAN 1990 PASSPORT NO AK1626595" =
      some "1990-01-15" := by decide

/-! ### Field extractors (`parseDocumentData`, ocr.ts 276-487) -/

/-- The declared document type (src/types.ts); it is only logged by the
extraction code and never alters its behaviour. -/
inductive DocumentType where
  | passport
  | id
  | driver_license
deriving DecidableEq, Repr

/-- `preprocessText` (ocr.ts lines 37-43): collapse every whitespace run
to a single space (tracking whether the previous character was
whitespace), drop characters outside `[\w\s\/\-\.:]`, trim. -/
def collapseWS : Bool → List Char → List Char
  | _, [] => []
  | prevSp, c :: cs =>
    if isSpace c then
      if prevSp then collapseWS true cs else ' ' :: collapseWS true cs
    else c :: collapseWS false cs

/-- The retained character class `[\w\s\/\-\.:]` of `preprocessText`. -/
def keepC (c : Char) : Bool :=
  wordChar c || isSpace c || c == '/' || c == '-' || c == '.' || c == ':'

/-- `preprocessText` on char lists. -/
def preprocessTextL (l : List Char) : List Char :=
  trimL ((collapseWS false l).filter keepC)

/-- The keyword alternation of the first document-number pattern
`(?:PASSPORT|PASSPORT\s+NO|PASSPORT\s+NUMBER|DOCUMENT\s+NO|DOC\s+NO|DOCUMENT\s+NUMBER|ID\s+NO|ID\s+NUMBER)`,
in source order. -/
def docKw1 : List (List (List Char)) :=
  [["PASSPORT".data], ["PASSPORT".data, "NO".data], ["PASSPORT".data, "NUMBER".data],
   ["DOCUMENT".data, "NO".data], ["DOC".data, "NO".data],
   ["DOCUMENT".data, "NUMBER".data], ["ID".data, "NO".data], ["ID".data, "NUMBER".data]]

/-- Document-number pattern (a): keyword, `[\s:]*`, then a 6-15 character
alphanumeric run (`i` flag; group 2 unused). -/
def docPat1At (_pw : Bool) (l : List Char) : Option (List Char × Option (List Char)) :=
  altWordsCI docKw1 l fun l1 =>
  greedyStar isSpColon l1 fun l2 =>
  greedy isAlnum 6 15 l2 fun l3 => some (cap l2 l3, none)

/-- Document-number pattern (b):
`\b([A-Z]{2,4})\s+([A-Z]{1,3}[0-9]{6,12})\b` (`i`): a country-code-like
token followed by a letter-prefixed digit run; the digit-run part is
group 2. -/
def docPat2At (pw : Bool) (l : List Char) : Option (List Char × Option (List Char)) :=
  if pw then none else
  greedy isLetterCI 2 4 l fun l1 =>
  greedyPlus isSpace l1 fun l2 =>
  greedy isLetterCI 1 3 l2 fun l3 =>
  greedy isDigitC 6 12 l3 fun l4 =>
  if nwHead l4 then some (cap l l1, some (cap l2 l4)) else none

/-- Document-number pattern (c): `\b([A-Z]{1,3}[0-9]{6,12})\b`
(case-sensitive). -/
def docPat3At (pw : Bool) (l : List Char) : Option (List Char × Option (List Char)) :=
  if pw then none else
  greedy upperL 1 3 l fun l1 =>
  greedy isDigitC 6 12 l1 fun l2 =>
  if nwHead l2 then some (cap l l2, none) else none

/-- Document-number pattern (d): `\b([0-9]{8,12})\b`. -/
def docPat4At (pw : Bool) (l : List Char) : Option (List Char × Option (List Char)) :=
  if pw then none else
  greedy isDigitC 8 12 l fun l1 =>
  if nwHead l1 then some (cap l l1, none) else none

/-- Document-number pattern (e): `(?:NO|NUMBER)[\s:]*([A-Z0-9]{6,15})` (`i`). -/
def docPat5At (_pw : Bool) (l : List Char) : Option (List Char × Option (List Char)) :=
  altLitCI ["NO".data, "NUMBER".data] l fun l1 =>
  greedyStar isSpColon l1 fun l2 =>
  greedy isAlnum 6 15 l2 fun l3 => some (cap l2 l3, none)

/-- The fixed document-number pattern table of `parseDocumentData`
(ocr.ts lines 300-311), in order. -/
def docPatterns : List (Bool → List Char → Option (List Char × Option (List Char))) :=
  [docPat1At, docPat2At, docPat3At, docPat4At, docPat5At]

/-- The date-shape test `/\d{1,2}[\/\-\.]\d{1,2}[\/\-\.]\d{2,4}/` used to
reject date-like document numbers (unanchored, at one position). -/
def dateShapeAt (l : List Char) : Option (List Char) :=
  greedy isDigitC 1 2 l fun l1 =>
  matchSep l1 fun l2 =>
  greedy isDigitC 1 2 l2 fun l3 =>
  matchSep l3 fun l4 =>
  greedy isDigitC 2 4 l4 fun l5 => some l5

/-- `RegExp.prototype.test` for a boundary-free pattern: try it anywhere. -/
def testAnywhere (m : List Char → Option (List Char)) : List Char → Bool
  | [] => (m []).isSome
  | c :: cs => (m (c :: cs)).isSome || testAnywhere m cs

/-- `/^[0-9]{8,}$/` — a purely numeric run of at least eight digits. -/
def allDigitsMin8 (l : List Char) : Bool := 8 ≤ l.length && l.all isDigitC

/-- The document-number pattern loop (ocr.ts lines 313-338): first
pattern whose (trimmed, group-2-preferred) candidate is at least six
characters, not date-shaped, and either mixes letters and digits or is an
eight-digit-plus numeric run. -/
def docNumberLoop (normalizedText : List Char) :
    List (Bool → List Char → Option (List Char × Option (List Char))) →
      Option (List Char)
  | [] => none
  | p :: ps =>
    match findFirstPos p false normalizedText with
    | some (g1, g2) =>
      let docNum := trimL (match g2 with | some g => g | none => g1)
      if 6 ≤ docNum.length && !testAnywhere dateShapeAt docNum then
        if (docNum.any upperL && docNum.any isDigitC) || allDigitsMin8 docNum then
          some docNum
        else docNumberLoop normalizedText ps
      else docNumberLoop normalizedText ps
    | none => docNumberLoop normalizedText ps

/-- `extractDocNumber`: the loop over the fixed pattern table. -/
def extractDocNumber (normalizedText : List Char) : Option (List Char) :=
  docNumberLoop normalizedText docPatterns

example :
    extractDocNumber "PASSPORT JOHN SMITH NATIONALITY KEN DATE OF BIRTH: 15 JAN 1990 PASSPORT NO AK1626595".data =
      some "AK1626595".data := by decide

/-- The fixed false-positive word denylist of the name extractor
(ocr.ts lines 342-348). -/
def falsePositives : List (List Char) :=
  ["REPUBLIC".data, "GOVERNMENT".data, "PASSPORT".data, "PASIPASSEPORT".data,
   "JAMHURI".data, "REPUBLIQUE".data, "KENYA".data, "KENYAN".data, "KEN".data,
   "COUNTRY".data, "NATIONALITY".data, "ISSUING".data, "AUTHORITY".data,
   "BEADS".data, "PAR".data, "BONE".data, "NEER".data, "MR".data, "PRD".data,
   "STN".data, "PACE".data, "HUH".data, "PE".data, "KI".data, "NET".data,
   "RUIRU".data, "GTR".data, "BN".data, "RIES".data, "PT".data, "AUG".data,
   "OCT".data, "JAN".data, "FEB".data, "MAR".data, "APR".data, "MAY".data,
   "JUN".data, "JUL".data, "SEP".data, "NOV".data, "DEC".data,
   "GOVERNMENT".data, "OF".data, "THE".data]

/-- The keyword alternation of the first name pattern
`(?:SURNAME|GIVEN\s+NAMES?|FULL\s+NAME|NAME)` (with the optional greedy
`S`). -/
def nameKw1 (l : List Char) (k : List Char → Option α) : Option α :=
  (litCI "SURNAME".data l k).orElse fun _ =>
  (litCI "GIVEN".data l fun l1 => greedyPlus isSpace l1 fun l2 =>
    litCI "NAME".data l2 fun l3 => optCharCI 'S' l3 k).orElse fun _ =>
  (litCI "FULL".data l fun l1 => greedyPlus isSpace l1 fun l2 =>
    litCI "NAME".data l2 k).orElse fun _ =>
  litCI "NAME".data l k

/-- Name pattern (a):
`(?:SURNAME|GIVEN\s+NAMES?|FULL\s+NAME|NAME)[\s:]*([A-Z][A-Z\s]{4,50})` (`i`). -/
def namePat1At (_pw : Bool) (l : List Char) : Option (List Char) :=
  nameKw1 l fun l1 =>
  greedyStar isSpColon l1 fun l2 =>
  match l2 with
  | c :: cs =>
    if isLetterCI c then greedy isLetterSpCI 4 50 cs fun l3 => some (cap l2 l3)
    else none
  | [] => none

/-- An all-caps word of at least three letters under `i`: `[A-Z]{3,}`. -/
def ciWord3 (l : List Char) (k : List Char → Option α) : Option α :=
  greedyAtLeast isLetterCI 3 l k

/-- The captured span `([A-Z]{3,}\s+[A-Z]{3,}(?:\s+[A-Z]{3,})?)` (`i`),
optional third word greedy. -/
def nameSpan (l : List Char) (k : List Char → Option α) : Option α :=
  ciWord3 l fun l1 =>
  greedyPlus isSpace l1 fun l2 =>
  ciWord3 l2 fun l3 =>
  (greedyPlus isSpace l3 fun l4 => ciWord3 l4 k).orElse fun _ => k l3

/-- The trailing marker `(?:\s+\n?\s*(?:NATIONALITY|KENYAN|COUNTRY|SEX|DATE))`. -/
def nameTail (l : List Char) (k : List Char → Option α) : Option α :=
  greedyPlus isSpace l fun l1 =>
  optChar '\n' l1 fun l2 =>
  greedyStar isSpace l2 fun l3 =>
  altLitCI ["NATIONALITY".data, "KENYAN".data, "COUNTRY".data, "SEX".data,
    "DATE".data] l3 k

/-- Name pattern (b):
`(?:PASSPORT[\/\s]+[A-Z\/\s]*\n?\s*)([A-Z]{3,}\s+[A-Z]{3,}(?:\s+[A-Z]{3,})?)(?:\s+\n?\s*(?:NATIONALITY|KENYAN|COUNTRY|SEX|DATE))`
(`i`). -/
def namePat2At (_pw : Bool) (l : List Char) : Option (List Char) :=
  litCI "PASSPORT".data l fun l1 =>
  greedyPlus isSlashSp l1 fun l2 =>
  greedyStar isLetterSlashSpCI l2 fun l3 =>
  optChar '\n' l3 fun l4 =>
  greedyStar isSpace l4 fun l5 =>
  nameSpan l5 fun l6 =>
  nameTail l6 fun _ => some (cap l5 l6)

/-- A mixed-case word `[A-Z][a-z]{2,}` (case-sensitive). -/
def mixedWord (l : List Char) (k : List Char → Option α) : Option α :=
  match l with
  | c :: cs => if upperL c then greedyAtLeast isLower 2 cs k else none
  | [] => none

/-- Name pattern (c):
`\b([A-Z][a-z]{2,}\s+[A-Z][a-z]{2,}(?:\s+[A-Z][a-z]{2,})?)\b`
(case-sensitive). -/
def namePat3At (pw : Bool) (l : List Char) : Option (List Char) :=
  if pw then none else
  mixedWord l fun l1 =>
  greedyPlus isSpace l1 fun l2 =>
  mixedWord l2 fun l3 =>
  ((greedyPlus isSpace l3 fun l4 =>
      mixedWord l4 fun l5 => if nwHead l5 then some (cap l l5) else none)).orElse
    fun _ => if nwHead l3 then some (cap l l3) else none

/-- `name.split(/\s+/)` on an already-trimmed string: the maximal
whitespace-free runs. -/
def splitWSAux : List Char → List Char → List (List Char)
  | [], acc => if acc.isEmpty then [] else [acc.reverse]
  | c :: cs, acc =>
    if isSpace c then
      if acc.isEmpty then splitWSAux cs []
      else acc.reverse :: splitWSAux cs []
    else splitWSAux cs (c :: acc)

/-- Split on whitespace runs. -/
def splitWS (l : List Char) : List (List Char) := splitWSAux l []

/-- The document-number-fragment prefix test `/^[A-Z]{1,3}[0-9]{6,}/`. -/
def docFragTest (w : List Char) : Bool :=
  (greedy upperL 1 3 w fun l1 => exactN isDigitC 6 l1 fun _ => some ()).isSome

/-- The anchored prefix test
`/^(REPUBLIC|GOVERNMENT|PASSPORT|KENYA|KENYAN|KEN|COUNTRY)/i`. -/
def startsBadTest (l : List Char) : Bool :=
  (altLitCI ["REPUBLIC".data, "GOVERNMENT".data, "PASSPORT".data, "KENYA".data,
    "KENYAN".data, "KEN".data, "COUNTRY".data] l fun rest => some rest).isSome

/-- The name-candidate validation of the pattern loop (ocr.ts lines
362-387). -/
def validName (name : List Char) : Bool :=
  let nameWords := splitWS (name.map upC)
  let isFalsePositive := nameWords.any fun w =>
    falsePositives.contains w || w.length < 3 || docFragTest w
  !isFalsePositive && 5 ≤ name.length && name.length ≤ 60 &&
    name.any isLetterCI && 2 ≤ nameWords.length && nameWords.length ≤ 5 &&
    !startsBadTest name

/-- The name pattern loop (ocr.ts lines 360-388): first pattern in order
whose first match validates. -/
def nameLoop (normalizedText : List Char) :
    List (Bool → List Char → Option (List Char)) → Option (List Char)
  | [] => none
  | p :: ps =>
    match findFirstPos p false normalizedText with
    | some g =>
      let name := trimL g
      if validName name then some name else nameLoop normalizedText ps
    | none => nameLoop normalizedText ps

/-- An all-caps span `\b([A-Z]{3,}\s+[A-Z]{3,}(?:\s+[A-Z]{3,})?)\b`
(case-sensitive), used by the fallback. -/
def capsSpanAt (pw : Bool) (l : List Char) : Option (List Char) :=
  if pw then none else
  greedyAtLeast upperL 3 l fun l1 =>
  greedyPlus isSpace l1 fun l2 =>
  greedyAtLeast upperL 3 l2 fun l3 =>
  ((greedyPlus isSpace l3 fun l4 =>
      greedyAtLeast upperL 3 l4 fun l5 => if nwHead l5 then some (cap l l5) else none)).orElse
    fun _ => if nwHead l3 then some (cap l l3) else none

/-- The between-`PASSPORT`-and-`NATIONALITY` fallback of the name
extractor (ocr.ts lines 391-414). -/
def nameFallback (normalizedText : List Char) : Option (List Char) :=
  match idxOf? normalizedText "PASSPORT".data with
  | none => none
  | some passportIndex =>
    let natIdx := idxOf? normalizedText "NATIONALITY".data
    let kenIdx := idxOf? normalizedText "KENYAN".data
    match (match natIdx with | some i => some i | none => kenIdx) with
    | none => none
    | some stop =>
      let start := passportIndex + 8
      let candidateText := trimL (jsSubstring normalizedText start stop)
      match findFirstPos capsSpanAt false candidateText with
      | none => none
      | some g =>
        let candidateName := trimL g
        let candidateWords := splitWS (candidateName.map upC)
        if !(candidateWords.any (falsePositives.contains ·)) &&
            5 ≤ candidateName.length && 2 ≤ candidateWords.length then
          some candidateName
        else none

/-- The full-name extraction of `parseDocumentData`: the pattern loop,
then the fallback. -/
def extractName (normalizedText : List Char) : Option (List Char) :=
  match nameLoop normalizedText [namePat1At, namePat2At, namePat3At] with
  | some n => some n
  | none => nameFallback normalizedText

example :
    extractName "PASSPORT JOHN SMITH NATIONALITY KEN DATE OF BIRTH: 15 JAN 1990 PASSPORT NO AK1626595".data =
      some "JOHN SMITH".data := by decide

/-- The fixed country code/name allowlist (ocr.ts lines 418-427),
including its duplicated `FRA` entry. -/
def validCountryCodes : List (List Char) :=
  ["KEN".data, "KENYA".data, "USA".data, "US".data, "UNITED STATES".data,
   "UK".data, "GB".data, "UNITED KINGDOM".data, "CAN".data, "CANADA".data,
   "GER".data, "DEU".data, "GERMANY".data, "FRA".data, "FRA".data,
   "FRANCE".data, "ESP".data, "SPAIN".data, "ITA".data, "ITALY".data,
   "AUS".data, "AUSTRALIA".data, "JPN".data, "JAPAN".data, "CHN".data,
   "CHINA".data, "IND".data, "INDIA".data, "BRA".data, "BRAZIL".data,
   "MEX".data, "MEXICO".data, "RUS".data, "RUSSIA".data, "KOR".data,
   "SOUTH KOREA".data, "NLD".data, "NETHERLANDS".data, "BEL".data,
   "BELGIUM".data, "CHE".data, "SWITZERLAND".data, "AUT".data,
   "AUSTRIA".data, "SWE".data, "SWEDEN".data, "NOR".data, "NORWAY".data,
   "DNK".data, "DENMARK".data, "FIN".data, "FINLAND".data, "POL".data,
   "POLAND".data, "PRT".data, "PORTUGAL".data, "GRC".data, "GREECE".data,
   "TUR".data, "TURKEY".data, "SAU".data, "SAUDI ARABIA".data, "ARE".data,
   "UAE".data, "UNITED ARAB EMIRATES".data]

/-- Country pattern (a):
`(?:COUNTRY\s+CODE|NATIONALITY|ISSUING\s+COUNTRY|COUNTRY\s+OF\s+ISSUE|COUNTRY)[\s:]*([A-Z]{2,3})\b`
(`i`). -/
def countryPat1At (_pw : Bool) (l : List Char) : Option (List Char) :=
  altWordsCI [["COUNTRY".data, "CODE".data], ["NATIONALITY".data],
    ["ISSUING".data, "COUNTRY".data], ["COUNTRY".data, "OF".data, "ISSUE".data],
    ["COUNTRY".data]] l fun l1 =>
  greedyStar isSpColon l1 fun l2 =>
  greedy isLetterCI 2 3 l2 fun l3 =>
  if nwHead l3 then some (cap l2 l3) else none

/-- Country pattern (b): `\b(KEN|KENYA)\b` (`i`). -/
def countryPat2At (pw : Bool) (l : List Char) : Option (List Char) :=
  if pw then none else
  ((litCI "KEN".data l fun l1 => if nwHead l1 then some (cap l l1) else none)).orElse
    fun _ =>
  litCI "KENYA".data l fun l1 => if nwHead l1 then some (cap l l1) else none

/-- The alternatives of country pattern (c), in source order. -/
def countryNameAlts : List (List (List Char)) :=
  [["USA".data], ["UNITED".data, "STATES".data], ["UK".data],
   ["UNITED".data, "KINGDOM".data], ["CANADA".data], ["GERMANY".data],
   ["FRANCE".data], ["SPAIN".data], ["ITALY".data], ["AUSTRALIA".data],
   ["JAPAN".data], ["CHINA".data], ["INDIA".data], ["BRAZIL".data],
   ["MEXICO".data], ["RUSSIA".data], ["SOUTH".data, "KOREA".data],
   ["NETHERLANDS".data], ["BELGIUM".data], ["SWITZERLAND".data],
   ["AUSTRIA".data], ["SWEDEN".data], ["NORWAY".data], ["DENMARK".data],
   ["FINLAND".data], ["POLAND".data], ["PORTUGAL".data], ["GREECE".data],
   ["TURKEY".data], ["SAUDI".data, "ARABIA".data], ["UAE".data],
   ["UNITED".data, "ARAB".data, "EMIRATES".data], ["KENYA".data]]

/-- Alternation of word sequences delimited by `\b` on both sides. -/
def altWordsB : List (List (List Char)) → List Char → Option (List Char)
  | [], _ => none
  | alt :: alts, l =>
    (matchWordsCI alt l fun l1 => if nwHead l1 then some (cap l l1) else none).orElse
      fun _ => altWordsB alts l

/-- Country pattern (c): `\b(USA|UNITED\s+STATES|…|KENYA)\b` (`i`). -/
def countryPat3At (pw : Bool) (l : List Char) : Option (List Char) :=
  if pw then none else altWordsB countryNameAlts l

/-- The country synonym normalization (ocr.ts lines 443-446). -/
def normCountry (c : List Char) : List Char :=
  if c == "KENYA".data then "KEN".data
  else if c == "UNITED STATES".data || c == "USA".data then "USA".data
  else if c == "UNITED KINGDOM".data || c == "UK".data then "UK".data
  else c

/-- The country-context test
`/(COUNTRY|NATIONALITY|KEN|KENYA|REPUBLIC|ISSUING)/` (case-sensitive
substring search). -/
def contextTest (l : List Char) : Bool :=
  (idxOf? l "COUNTRY".data).isSome || (idxOf? l "NATIONALITY".data).isSome ||
  (idxOf? l "KEN".data).isSome || (idxOf? l "KENYA".data).isSome ||
  (idxOf? l "REPUBLIC".data).isSome || (idxOf? l "ISSUING".data).isSome

/-- The country pattern loop (ocr.ts lines 438-478): the candidate is
upper-cased and normalized; it must be a known code/name or a 2-3 letter
code, and a 3-letter candidate additionally needs a country-context
keyword within 20 characters of its first occurrence or must occur in the
first 100 characters. -/
def countryLoop (normalizedText : List Char) :
    List (Bool → List Char → Option (List Char)) → Option (List Char)
  | [] => none
  | p :: ps =>
    match findFirstPos p false normalizedText with
    | some g =>
      let country := normCountry ((trimL g).map upC)
      if validCountryCodes.contains country ||
          (2 ≤ country.length && country.length ≤ 3 && country.all upperL) then
        if country.length == 3 then
          match idxOf? normalizedText country with
          | some countryIndex =>
            let context := (jsSubstring normalizedText (countryIndex - 20)
              (min normalizedText.length (countryIndex + country.length + 20))).map upC
            if contextTest context || countryIndex < 100 then some country
            else countryLoop normalizedText ps
          | none => countryLoop normalizedText ps
        else some country
      else countryLoop normalizedText ps
    | none => countryLoop normalizedText ps

/-- The last-resort `\bKEN\b` test of the country extractor
(ocr.ts lines 481-484). -/
def kenTest (l : List Char) : Bool :=
  (findFirstPos (fun pw l' =>
    if pw then (none : Option (List Char)) else
    litCI "KEN".data l' fun l1 => if nwHead l1 then some l1 else none) false l).isSome

/-- The country extraction of `parseDocumentData`: the pattern loop, then
the bare-`KEN` fallback. -/
def extractCountry (normalizedText : List Char) : Option (List Char) :=
  match countryLoop normalizedText [countryPat1At, countryPat2At, countryPat3At] with
  | some c => some c
  | none => if kenTest normalizedText then some "KEN".data else none

/-- The result record of `parseDocumentData` (interface `OCRResult`,
ocr.ts lines 4-10). -/
structure OCRResultL where
  birthdate : Option (List Char)
  documentNumber : Option (List Char)
  fullName : Option (List Char)
  country : Option (List Char)
  rawText : List Char
deriving DecidableEq, Repr

/-- `parseDocumentData` (ocr.ts lines 276-487) with the ambient current
date explicit.  The declared document type is only logged by the source
and does not influence any field. -/
def parseDocumentDataL (today : SimpleDate) (text : List Char)
    (_documentType : DocumentType) : OCRResultL :=
  let preprocessedText := preprocessTextL text
  let normalizedText := preprocessedText.map upC
  { birthdate := findBirthdateL today preprocessedText
    documentNumber := extractDocNumber normalizedText
    fullName := extractName normalizedText
    country := extractCountry normalizedText
    rawText := text }

/-- `parseDocumentData` on strings. -/
def parseDocumentData (today : SimpleDate) (text : String) (dt : DocumentType) :
    OCRResultL :=
  parseDocumentDataL today text.data dt

example :
    (parseDocumentDataL refToday "PASSPORT JOHN SMITH NATIONALITY KEN DATE OF BIRTH: 15 JAN 1990 PASSPORT NO AK1626595".data DocumentType.passport) =
      { birthdate := some "1990-01-15".data
        documentNumber := some "AK1626595".data
        fullName := some "JOHN SMITH".data
        country := some "KEN".data
        rawText := "PASSPORT JOHN SMITH NATIONALITY KEN DATE OF BIRTH: 15 JAN 1990 PASSPORT NO AK1626595".data } := by
  decide

/-! ### `extractDocumentData` (ocr.ts 652-764)

`extractDocumentData` first runs the external OCR engine on the image and
then parses and validates the recognized text; the model below covers the
parse-and-validate step, taking the recognized `text` as input.  The
source signals a missing mandatory field by `throw new Error(message)` —
a plain JS `Error` carrying only a human-readable message string — which
is embedded as the error side of an `Except`. -/

/-- A JS `Error` value as thrown by `extractDocumentData`: it carries
nothing but its message. -/
structure JsError where
  message : List Char
deriving DecidableEq, Repr

/-- The success record (interface `ExtractedData`, src/types.ts): both
mandatory fields are non-optional strings. -/
structure ExtractedDataL where
  birthdate : List Char
  documentNumber : List Char
  documentType : DocumentType
  fullName : Option (List Char)
  country : Option (List Char)
deriving DecidableEq, Repr

/-- The numbered `  ${i+1}. ${d}\n` lines of the diagnostic messages. -/
def numberedLines : Nat → List (List Char) → List Char
  | _, [] => []
  | i, d :: ds =>
    "  ".data ++ natToChars (i + 1) ++ ". ".data ++ d ++ "\n".data ++
      numberedLines (i + 1) ds

/-- The missing-birthdate diagnostic message (ocr.ts lines 673-709),
built exactly as the source concatenates it. -/
def birthdateErrorMsg (text : List Char) : List Char :=
  let allDates := extractAllDatesL text
  let preprocessedText := preprocessTextL text
  let allDatesPreprocessed := extractAllDatesL preprocessedText
  let parsedDates := (allDates ++ allDatesPreprocessed).map fun d =>
    match parseDateL d with
    | some p => d ++ " -> ".data ++ p
    | none => d ++ " -> (could not parse)".data
  "Could not extract birthdate from document.\n\n".data ++
  "OCR extracted ".data ++ natToChars text.length ++ " characters of text.\n".data ++
  (if 0 < allDates.length + allDatesPreprocessed.length then
    "Found ".data ++ natToChars (allDates.length + allDatesPreprocessed.length) ++
      " potential date(s):\n".data ++
    numberedLines 0 parsedDates ++
    "\nThese dates were found but did not pass validation (must be between 1900 and today).\n".data
  else
    "No dates were found in the extracted text.\n".data) ++
  "\nPlease check:\n".data ++
  "1. The document image is clear and in focus\n".data ++
  "2. The birthdate field is clearly visible\n".data ++
  "3. The text is not rotated or skewed\n".data ++
  "4. The image has sufficient resolution\n".data ++
  "\nCheck the browser console for the full OCR text output.".data

/-- Near-miss pattern `\b([A-Z]{1,3}[0-9]{6,15})\b` of the
document-number diagnostics. -/
def diagPatA (pw : Bool) (l : List Char) : Option (List Char) :=
  if pw then none else
  greedy upperL 1 3 l fun l1 =>
  greedy isDigitC 6 15 l1 fun l2 =>
  if nwHead l2 then some l2 else none

/-- Near-miss pattern `\b([0-9]{8,15})\b`. -/
def diagPatB (pw : Bool) (l : List Char) : Option (List Char) :=
  if pw then none else
  greedy isDigitC 8 15 l fun l1 =>
  if nwHead l1 then some l1 else none

/-- The missing-document-number diagnostic message (ocr.ts lines
718-754). -/
def docNumberErrorMsg (text : List Char) : List Char :=
  let normalizedText := (preprocessTextL text).map upC
  let potentialNumbers :=
    (matchAllL diagPatA normalizedText ++ matchAllL diagPatB normalizedText).filter
      fun m => 6 ≤ m.length
  "Could not extract document number from document.\n\n".data ++
  (if 0 < potentialNumbers.length then
    "Found ".data ++ natToChars potentialNumbers.length ++
      " potential document number(s):\n".data ++
    numberedLines 0 potentialNumbers ++
    "\nThese were found but did not match expected patterns.\n".data
  else
    "No potential document numbers were found.\n".data) ++
  "\nPlease ensure the document number is clearly visible.".data ++
  "\nCheck the browser console for the full OCR text output.".data

/-- The parse-and-validate step of `extractDocumentData` (ocr.ts lines
666-764), taking the OCR-recognized text: parse, then fail with a plain
`Error` when a mandatory field is absent, otherwise return the record. -/
def extractDocumentDataCore (today : SimpleDate) (text : List Char)
    (documentType : DocumentType) : Except JsError ExtractedDataL :=
  let parsed := parseDocumentDataL today text documentType
  match parsed.birthdate with
  | none => .error ⟨birthdateErrorMsg text⟩
  | some bd =>
    match parsed.documentNumber with
    | none => .error ⟨docNumberErrorMsg text⟩
    | some dn =>
      .ok { birthdate := bd, documentNumber := dn, documentType := documentType,
            fullName := parsed.fullName, country := parsed.country }

instance {ε α : Type} [DecidableEq ε] [DecidableEq α] : DecidableEq (Except ε α)
  | .error e, .error e' => decidable_of_iff (e = e') (by simp)
  | .error _, .ok _ => isFalse (by simp)
  | .ok _, .error _ => isFalse (by simp)
  | .ok a, .ok a' => decidable_of_iff (a = a') (by simp)

example :
    extractDocumentDataCore refToday "PASSPORT JOHN SMITH NATIONALITY KEN DATE OF BIRTH: 15 JAN 1990 PASSPORT NO AK1626595".data DocumentType.passport =
      .ok { birthdate := "1990-01-15".data, documentNumber := "AK1626595".data,
            documentType := DocumentType.passport,
            fullName := some "JOHN SMITH".data, country := some "KEN".data } := by
  decide

/-! ## Claim C1: the calendar invariant of `parseDate` -/

theorem isValid_bounds {y m d : Nat} (h : isValidDateComponents y m d = true) :
    1 ≤ m ∧ m ≤ 12 ∧ 1 ≤ d ∧ d ≤ daysInMonth y m ∧ 1900 ≤ y ∧ y ≤ 2100 := by
  unfold isValidDateComponents at h
  split_ifs at h with h1 h2 h3
  simp only [Bool.or_eq_true, decide_eq_true_eq, not_or, not_lt] at h1 h2 h3
  simp only [decide_eq_true_eq] at h
  omega

theorem parseMonthNameBranch_valid {g1 g2 g3 r : List Char}
    (h : parseMonthNameBranch g1 g2 g3 = some r) :
    ∃ y m d, r = formatDateL y m d ∧ isValidDateComponents y m d = true := by
  unfold parseMonthNameBranch at h
  split_ifs at h with hc
  simp only [Option.some.injEq] at h
  simp only [Bool.and_eq_true] at hc
  exact ⟨_, _, _, h.symm, hc.2⟩

theorem parseTextDateStep_valid {l r : List Char} (h : parseTextDateStep l = some r) :
    ∃ y m d, r = formatDateL y m d ∧ isValidDateComponents y m d = true := by
  unfold parseTextDateStep at h
  split at h
  · exact parseMonthNameBranch_valid h
  · exact absurd h (by simp)

theorem parseSpaceStep_valid {l r : List Char} (h : parseSpaceStep l = some r) :
    ∃ y m d, r = formatDateL y m d ∧ isValidDateComponents y m d = true := by
  unfold parseSpaceStep at h
  split at h
  · exact parseMonthNameBranch_valid h
  · exact absurd h (by simp)

theorem parseYMDStep_valid {l r : List Char} (h : parseYMDStep l = some r) :
    ∃ y m d, r = formatDateL y m d ∧ isValidDateComponents y m d = true := by
  unfold parseYMDStep at h
  split at h
  · split_ifs at h with hc
    simp only [Option.some.injEq] at h
    exact ⟨_, _, _, h.symm, hc⟩
  · exact absurd h (by simp)

theorem parseDMYBranch_valid {p1 p2 yr : Nat} {k : Option (List Char)} {r : List Char}
    (hk : ∀ r', k = some r' →
      ∃ y m d, r' = formatDateL y m d ∧ isValidDateComponents y m d = true)
    (h : parseDMYBranch p1 p2 yr k = some r) :
    ∃ y m d, r = formatDateL y m d ∧ isValidDateComponents y m d = true := by
  unfold parseDMYBranch at h
  split_ifs at h with hA hB hC hD hE hF
  · simp only [Option.some.injEq] at h
    exact ⟨_, _, _, h.symm, hB⟩
  · exact hk r h
  · simp only [Option.some.injEq] at h
    exact ⟨_, _, _, h.symm, hD⟩
  · exact hk r h
  · simp only [Option.some.injEq] at h
    exact ⟨_, _, _, h.symm, hE⟩
  · simp only [Option.some.injEq] at h
    exact ⟨_, _, _, h.symm, hF⟩

theorem parseDMYStep_valid {l r : List Char} (h : parseDMYStep l = some r) :
    ∃ y m d, r = formatDateL y m d ∧ isValidDateComponents y m d = true := by
  unfold parseDMYStep at h
  split at h
  · exact parseDMYBranch_valid (fun r' h' => parseTextDateStep_valid h') h
  · exact parseTextDateStep_valid h

theorem parseDateL_valid {l r : List Char} (h : parseDateL l = some r) :
    ∃ y m d, r = formatDateL y m d ∧ isValidDateComponents y m d = true := by
  unfold parseDateL at h
  split_ifs at h with h0
  split at h
  · rename_i r' heq
    simp only [Option.some.injEq] at h
    subst h
    exact parseSpaceStep_valid heq
  · split at h
    · rename_i r' heq
      simp only [Option.some.injEq] at h
      subst h
      exact parseYMDStep_valid heq
    · exact parseDMYStep_valid h

/-- **C1.** Whenever `parseDate` returns a non-null result, the underlying
`(year, month, day)` triple satisfies the calendar invariant
`1 ≤ month ≤ 12`, `1 ≤ day ≤ days_in_month(year, month)` and
`1900 ≤ year ≤ 2100`, with leap years honored (`2024-02-29` is accepted
and `2023-02-29` rejected, through both the month-name and numeric
branches); a triple failing the invariant yields `null`, never a
partially-populated result. -/
theorem parseDate_calendar_invariant :
    (∀ (s r : String), parseDate s = some r →
      ∃ y m d, r.data = formatDateL y m d ∧ 1 ≤ m ∧ m ≤ 12 ∧ 1 ≤ d ∧
        d ≤ daysInMonth y m ∧ 1900 ≤ y ∧ y ≤ 2100) ∧
    parseDate "29 FEB 2024" = some "2024-02-29" ∧
    parseDate "29 FEB 2023" = none ∧
    parseDate "2024-02-29" = some "2024-02-29" ∧
    parseDate "2023-02-29" = none := by
  refine ⟨?_, by decide, by decide, by decide, by decide⟩
  intro s r h
  unfold parseDate at h
  obtain ⟨rl, hrl, hmk⟩ := Option.map_eq_some'.mp h
  obtain ⟨y, m, d, hfmt, hval⟩ := parseDateL_valid hrl
  obtain ⟨hm1, hm2, hd1, hd2, hy1, hy2⟩ := isValid_bounds hval
  exact ⟨y, m, d, by rw [← hmk, hfmt], hm1, hm2, hd1, hd2, hy1, hy2⟩

/-- Witness for C1 at the concrete input `"05/03/1990"`. -/
theorem parseDate_calendar_invariant_witness :
    ∃ y m d, ("1990-03-05" : String).data = formatDateL y m d ∧ 1 ≤ m ∧ m ≤ 12 ∧
      1 ≤ d ∧ d ≤ daysInMonth y m ∧ 1900 ≤ y ∧ y ≤ 2100 :=
  parseDate_calendar_invariant.1 "05/03/1990" "1990-03-05" (by decide)

/-! ## Claim C4: day/month order resolution -/

/-- **C4.** In the numeric `D/M/Y`-shaped branch of `parseDate`: a first
field above 12 is taken as the day, a second field above 12 is taken as
the day, and when both fields are at most 12 the day-first interpretation
is returned whenever it is a structurally valid calendar date, the
month-first interpretation being used only when day-first is invalid.  In
particular `"05/03/1990"` parses to `1990-03-05` and `"13/02/1990"` to
`1990-02-13`. -/
theorem parseDate_day_month_order :
    (∀ p1 p2 yraw k, 12 < p1 → isValidDateComponents (fixYear yraw) p2 p1 = true →
      parseDMYBranch p1 p2 yraw k = some (formatDateL (fixYear yraw) p2 p1)) ∧
    (∀ p1 p2 yraw k, p1 ≤ 12 → 12 < p2 →
      isValidDateComponents (fixYear yraw) p1 p2 = true →
      parseDMYBranch p1 p2 yraw k = some (formatDateL (fixYear yraw) p1 p2)) ∧
    (∀ p1 p2 yraw k, p1 ≤ 12 → p2 ≤ 12 →
      isValidDateComponents (fixYear yraw) p2 p1 = true →
      parseDMYBranch p1 p2 yraw k = some (formatDateL (fixYear yraw) p2 p1)) ∧
    (∀ p1 p2 yraw k, p1 ≤ 12 → p2 ≤ 12 →
      isValidDateComponents (fixYear yraw) p2 p1 = false →
      isValidDateComponents (fixYear yraw) p1 p2 = true →
      parseDMYBranch p1 p2 yraw k = some (formatDateL (fixYear yraw) p1 p2)) ∧
    parseDate "05/03/1990" = some "1990-03-05" ∧
    parseDate "13/02/1990" = some "1990-02-13" := by
  refine ⟨?_, ?_, ?_, ?_, by decide, by decide⟩
  · intro p1 p2 yraw k h1 h2
    unfold parseDMYBranch
    rw [if_pos h1, if_pos h2]
  · intro p1 p2 yraw k h1 h2 h3
    unfold parseDMYBranch
    rw [if_neg (by omega), if_pos h2, if_pos h3]
  · intro p1 p2 yraw k h1 h2 h3
    unfold parseDMYBranch
    rw [if_neg (by omega), if_neg (by omega), if_pos h3]
  · intro p1 p2 yraw k h1 h2 h3 h4
    unfold parseDMYBranch
    rw [if_neg (by omega), if_neg (by omega), if_neg (by rw [h3]; simp), if_pos h4]

/-- Witness for C4: `13` cannot be a month, so it is the day. -/
theorem parseDate_day_month_order_witness :
    parseDMYBranch 13 2 1990 none = some (formatDateL (fixYear 1990) 2 13) :=
  parseDate_day_month_order.1 13 2 1990 none (by decide) (by decide)

/-! ## Claim C3: the end-to-end scenario -/

/-- The spec's end-to-end scenario input text. -/
def scenarioText : String :=
  "PASSPORT JOHN SMITH NATIONALITY KEN DATE OF BIRTH: 15 JAN 1990 PASSPORT NO AK1626595"

/-- **C3.** On the end-to-end scenario text, and for every declared
document type, extraction succeeds with birthdate `1990-01-15`, document
number `AK1626595`, full name `JOHN SMITH` and country `KEN`. -/
theorem end_to_end_scenario (dt : DocumentType) :
    extractDocumentDataCore refToday scenarioText.data dt =
      Except.ok { birthdate := "1990-01-15".data, documentNumber := "AK1626595".data,
                  documentType := dt, fullName := some "JOHN SMITH".data,
                  country := some "KEN".data } := by
  have h : parseDocumentDataL refToday scenarioText.data dt =
      { birthdate := some "1990-01-15".data, documentNumber := some "AK1626595".data,
        fullName := some "JOHN SMITH".data, country := some "KEN".data,
        rawText := scenarioText.data } :=
    (by decide :
      parseDocumentDataL refToday scenarioText.data DocumentType.passport =
        { birthdate := some "1990-01-15".data, documentNumber := some "AK1626595".data,
          fullName := some "JOHN SMITH".data, country := some "KEN".data,
          rawText := scenarioText.data })
  unfold extractDocumentDataCore
  rw [h]

/-! ## Claim C6: purity with respect to ambient state -/

/-- Counterexample to C6 as stated: `isValidBirthdate` reads the ambient
clock (`new Date()`), so two runs of extraction on the same `(text,
documentType)` input at different times can produce different results —
here a document whose only date is 2050-01-01 yields no birthdate when
run in 2026 (future date) but yields it when run in 2060. -/
theorem extraction_clock_dependence_counterexample :
    parseDocumentData ⟨2026, 10, 11⟩ "REF 01/01/2050" DocumentType.passport ≠
      parseDocumentData ⟨2060, 1, 2⟩ "REF 01/01/2050" DocumentType.passport := by
  decide

/-- **C6 (amended).** Extraction is a pure function of the text and the
current date: with the ambient clock made explicit, the result does not
depend on the declared document type (which the source only logs), and
any two runs with the same text and the same clock reading agree. -/
theorem extraction_pure_in_text_and_clock (today : SimpleDate) (text : String)
    (dt dt' : DocumentType) :
    parseDocumentData today text dt = parseDocumentData today text dt' := rfl

/-! ## Claim C2: mandatory fields and the failure channel -/

theorem isPrefixOf_append : ∀ (l1 l2 l3 : List Char), l1.isPrefixOf l2 = true →
    l1.isPrefixOf (l2 ++ l3) = true
  | [], l2, l3, _ => by cases l2 ++ l3 <;> rfl
  | a :: as, [], l3, h => by simp [List.isPrefixOf] at h
  | a :: as, b :: bs, l3, h => by
    simp only [List.isPrefixOf, Bool.and_eq_true, beq_iff_eq, List.cons_append] at h ⊢
    exact ⟨h.1, isPrefixOf_append as bs l3 h.2⟩

/-- The input of the C2 counterexample: a text with no date-shaped
substring at all. -/
def noDataText : String := "NO DATA HERE"

set_option maxRecDepth 16000 in
/-- Counterexample to C2 as stated: the failure raised on a dateless
input is a plain JS `Error` value carrying nothing but a human-readable
message; it bears no structured `missing_birthdate` or
`missing_document_number` tag — the spec's tag labels do not even occur
in the message as substrings.  The failure is the generic exception the
claim says it is not. -/
theorem extraction_error_untagged_counterexample :
    extractDocumentDataCore refToday noDataText.data DocumentType.passport =
      Except.error ⟨birthdateErrorMsg noDataText.data⟩ ∧
    idxOf? (birthdateErrorMsg noDataText.data) "missing_birthdate".data = none ∧
    idxOf? (birthdateErrorMsg noDataText.data) "missing_document_number".data = none ∧
    ("Could not extract birthdate from document.".data).isPrefixOf
      (birthdateErrorMsg noDataText.data) = true := by
  decide

/-- **C2 (amended).** For every input text and document type, extraction
either returns a record in which both mandatory fields are present (they
come from the parse result being `some`), or throws a single `Error`
whose message is exactly one of the two diagnostics, each identifying the
missing mandatory field by its distinctive leading line; it never returns
a record with an absent mandatory field.  The failure is a generic
exception carrying a diagnostic message, not a structured tagged error. -/
theorem extraction_failure_identifies_missing_field
    (today : SimpleDate) (text : List Char) (dt : DocumentType) :
    (∀ e, extractDocumentDataCore today text dt = Except.error e →
      e.message = birthdateErrorMsg text ∨ e.message = docNumberErrorMsg text) ∧
    (∀ rec, extractDocumentDataCore today text dt = Except.ok rec →
      (parseDocumentDataL today text dt).birthdate = some rec.birthdate ∧
      (parseDocumentDataL today text dt).documentNumber = some rec.documentNumber) ∧
    ("Could not extract birthdate from document.".data).isPrefixOf
      (birthdateErrorMsg text) = true ∧
    ("Could not extract document number from document.".data).isPrefixOf
      (docNumberErrorMsg text) = true := by
  refine ⟨?_, ?_, ?_, ?_⟩
  · intro e he
    simp only [extractDocumentDataCore] at he
    split at he
    · simp only [Except.error.injEq] at he
      left
      rw [← he]
    · split at he
      · simp only [Except.error.injEq] at he
        right
        rw [← he]
      · exact absurd he (by simp)
  · intro rec he
    simp only [extractDocumentDataCore] at he
    split at he
    · exact absurd he (by simp)
    · rename_i bd heqb
      split at he
      · exact absurd he (by simp)
      · rename_i dn heqd
        simp only [Except.ok.injEq] at he
        subst he
        exact ⟨heqb, heqd⟩
  · simp only [birthdateErrorMsg, List.append_assoc]
    exact isPrefixOf_append _ _ _ (by decide)
  · simp only [docNumberErrorMsg, List.append_assoc]
    exact isPrefixOf_append _ _ _ (by decide)

set_option maxRecDepth 16000 in
/-- Witness for the amended C2 at the concrete dateless input. -/
theorem extraction_failure_identifies_missing_field_witness :
    birthdateErrorMsg noDataText.data = birthdateErrorMsg noDataText.data ∨
    birthdateErrorMsg noDataText.data = docNumberErrorMsg noDataText.data :=
  (extraction_failure_identifies_missing_field refToday noDataText.data
      DocumentType.passport).1
    ⟨birthdateErrorMsg noDataText.data⟩ (by decide)

/-! ## Claim C7: idempotence of the normalizer -/

/-- **C7.** The OCR text normalizer is idempotent: for every string `t`,
`normalizeOCRText (normalizeOCRText t) = normalizeOCRText t` — each of
the thirteen month-token passes, the standalone-zero pass and the
`1`-before-capital pass leaves its own output (and every later pass's
output) fixed. -/
theorem normalizeOCRText_idempotent (t : String) :
    normalizeOCRText (normalizeOCRText t) = normalizeOCRText t :=
  congrArg String.mk (normalizeOCRTextL_idem t.data)

/-! ## Claim C5: the keyword window scan -/

/-- C5 counterexample text: a first `DATE OF BIRTH` whose window is
empty of dates, a stray earlier date, and a second `DATE OF BIRTH`
occurrence (at index 269) whose window does hold a plausible date. -/
def textC5 : List Char :=
  "DATE OF BIRTH ".data ++ List.replicate 150 'X' ++ " 02/02/1981 ".data ++
  List.replicate 80 'Y' ++ " 15 JAN 1995 DATE OF BIRTH".data

set_option maxRecDepth 32000 in
/-- Counterexample to C5 as stated: the scan uses `indexOf`, which sees
only the FIRST occurrence of each keyword, not "each occurrence".  Here
`DATE OF BIRTH` also occurs at index 269, and the claimed window of that
occurrence (75 before, 150 after) contains the plausible date
`15 JAN 1995`; under the claim the resolver would have to return
`1995-01-15`, but the code, finding nothing near the first occurrences,
falls back to the whole-document scan and returns the lexicographically
smallest date `1981-02-02`. -/
theorem keyword_scan_first_occurrence_counterexample :
    idxOf? ((normalizeOCRTextL textC5).map upC) "DATE OF BIRTH".data = some 0 ∧
    ("DATE OF BIRTH".data).isPrefixOf (textC5.drop 269) = true ∧
    firstValidDate refToday
      (extractAllDatesL
        (jsSubstring textC5 (269 - 75) (min textC5.length (269 + 13 + 150)))) =
      some "1995-01-15".data ∧
    findBirthdate refToday ⟨textC5⟩ = some "1981-02-02" ∧
    findBirthdate refToday ⟨textC5⟩ ≠ some "1995-01-15" := by
  decide

/-- **C5 (amended).** The resolver scans the keyword list in order but
examines only the first occurrence of each keyword (`indexOf`); whenever
that keyword phase yields a date — the first parsed, plausibility-passing
date in a first-occurrence window — `findBirthdate` returns it
immediately, in preference to any other date in the document. -/
theorem keyword_scan_precedence (today : SimpleDate) (text : String) (d : List Char)
    (h : keywordScanL today text.data = some d) :
    findBirthdate today text = some ⟨d⟩ := by
  unfold findBirthdate findBirthdateL
  rw [h]
  rfl

set_option maxRecDepth 16000 in
/-- Witness for the amended C5: a date near the sole `DATE OF BIRTH` is
preferred over an earlier date elsewhere in the document. -/
theorem keyword_scan_precedence_witness :
    findBirthdate refToday
      ⟨"ISSUED 01/01/1980 ".data ++ List.replicate 80 'X' ++
        " DATE OF BIRTH 15 JAN 1990".data⟩ = some ⟨"1990-01-15".data⟩ :=
  keyword_scan_precedence refToday
    ⟨"ISSUED 01/01/1980 ".data ++ List.replicate 80 'X' ++
      " DATE OF BIRTH 15 JAN 1990".data⟩ "1990-01-15".data (by decide)

/-! ## Claim C8: the whole-document fallback -/

/-- The dates of a text that parse and pass the plausibility filter, in
discovery order — the `validBirthdates` array of `findBirthdate`. -/
def validBirthdatesOf (today : SimpleDate) (l : List Char) : List (List Char) :=
  ((extractAllDatesL l).filterMap parseDateL).filter (isValidBirthdate today)

theorem lexLe_refl : ∀ l : List Char, lexLe l l = true
  | [] => rfl
  | a :: as => by
    unfold lexLe
    rw [if_neg (lt_irrefl a.toNat), if_neg (lt_irrefl a.toNat)]
    exact lexLe_refl as

theorem lexLe_total : ∀ a b : List Char, lexLe a b = true ∨ lexLe b a = true
  | [], _ => Or.inl rfl
  | _ :: _, [] => Or.inr rfl
  | a :: as, b :: bs => by
    unfold lexLe
    rcases Nat.lt_trichotomy a.toNat b.toNat with h | h | h
    · left; rw [if_pos h]
    · have h1 : ¬ a.toNat < b.toNat := by omega
      have h2 : ¬ b.toNat < a.toNat := by omega
      rw [if_neg h1, if_neg h2, if_neg h2, if_neg h1]
      exact lexLe_total as bs
    · right; rw [if_pos h]

theorem lexLe_trans : ∀ a b c : List Char, lexLe a b = true → lexLe b c = true →
    lexLe a c = true
  | [], _, _, _, _ => rfl
  | _ :: _, [], _, h1, _ => by exact absurd h1 (by simp [lexLe])
  | _ :: _, _ :: _, [], _, h2 => by exact absurd h2 (by simp [lexLe])
  | a :: as, b :: bs, c :: cs, h1, h2 => by
    unfold lexLe at h1 h2 ⊢
    rcases Nat.lt_trichotomy a.toNat b.toNat with hab | hab | hab
    · rcases Nat.lt_trichotomy b.toNat c.toNat with hbc | hbc | hbc
      · rw [if_pos (by omega)]
      · rw [if_pos (by omega)]
      · rw [if_neg (by omega), if_pos hbc] at h2
        exact absurd h2 (by simp)
    · rw [if_neg (by omega), if_neg (by omega)] at h1
      rcases Nat.lt_trichotomy b.toNat c.toNat with hbc | hbc | hbc
      · rw [if_pos (by omega)]
      · rw [if_neg (by omega), if_neg (by omega)] at h2
        rw [if_neg (by omega), if_neg (by omega)]
        exact lexLe_trans as bs cs h1 h2
      · rw [if_neg (by omega), if_pos hbc] at h2
        exact absurd h2 (by simp)
    · rw [if_neg (by omega), if_pos hab] at h1
      exact absurd h1 (by simp)

theorem insertSorted_ne_nil (x : List Char) : ∀ l, insertSorted x l ≠ []
  | [] => by simp [insertSorted]
  | y :: ys => by
    unfold insertSorted
    split <;> simp

theorem sortJS_eq_nil : ∀ l, sortJS l = [] ↔ l = []
  | [] => by simp [sortJS]
  | x :: xs => by
    simp only [sortJS]
    constructor
    · intro h
      exact absurd h (insertSorted_ne_nil x (sortJS xs))
    · intro h
      exact absurd h (by simp)

theorem mem_insertSorted (x y : List Char) : ∀ l, y ∈ insertSorted x l ↔ y = x ∨ y ∈ l
  | [] => by simp [insertSorted]
  | z :: zs => by
    unfold insertSorted
    split
    · simp
    · rw [List.mem_cons, mem_insertSorted x y zs, List.mem_cons]
      tauto

theorem mem_sortJS (y : List Char) : ∀ l, y ∈ sortJS l ↔ y ∈ l
  | [] => Iff.rfl
  | x :: xs => by
    simp only [sortJS]
    rw [mem_insertSorted, mem_sortJS y xs, List.mem_cons]

theorem insertSorted_head (x : List Char) : ∀ l : List (List Char),
    (l = [] ∧ (insertSorted x l).head? = some x) ∨
    (∃ h t, l = h :: t ∧
      (((insertSorted x l).head? = some x ∧ lexLe x h = true) ∨
       ((insertSorted x l).head? = some h ∧ lexLe h x = true)))
  | [] => Or.inl ⟨rfl, rfl⟩
  | y :: ys => by
    right
    refine ⟨y, ys, rfl, ?_⟩
    by_cases hxy : lexLe x y = true
    · left
      exact ⟨by simp [insertSorted, hxy], hxy⟩
    · right
      refine ⟨by simp [insertSorted, hxy], ?_⟩
      rcases lexLe_total x y with h | h
      · exact absurd h hxy
      · exact h

theorem sortJS_head_min : ∀ (l : List (List Char)) (m : List Char),
    (sortJS l).head? = some m → m ∈ l ∧ ∀ y ∈ l, lexLe m y = true
  | [], m => by intro h; exact absurd h (by simp [sortJS])
  | x :: xs, m => by
    intro hm
    simp only [sortJS] at hm
    rcases insertSorted_head x (sortJS xs) with ⟨hnil, hx⟩ | ⟨h, t, heq, hcase⟩
    · have hxs : xs = [] := (sortJS_eq_nil xs).1 hnil
      rw [hx] at hm
      have hmx : m = x := by injection hm with hh; exact hh.symm
      subst hmx hxs
      refine ⟨by simp, ?_⟩
      intro y hy
      rw [List.mem_singleton] at hy
      rw [hy]
      exact lexLe_refl m
    · have hh : (sortJS xs).head? = some h := by rw [heq]; rfl
      obtain ⟨hmem, hmin⟩ := sortJS_head_min xs h hh
      rcases hcase with ⟨hhead, hle⟩ | ⟨hhead, hle⟩
      · rw [hhead] at hm
        have hmx : m = x := by cases hm; rfl
        subst hmx
        refine ⟨by simp, ?_⟩
        intro y hy
        rcases List.mem_cons.1 hy with hy | hy
        · rw [hy]; exact lexLe_refl m
        · exact lexLe_trans m h y hle (hmin y hy)
      · rw [hhead] at hm
        have hmx : m = h := by cases hm; rfl
        subst hmx
        refine ⟨List.mem_cons_of_mem x hmem, ?_⟩
        intro y hy
        rcases List.mem_cons.1 hy with hy | hy
        · rw [hy]; exact hle
        · exact hmin y hy

/-- **C8 (claim).** When the keyword phase yields nothing, `findBirthdate`
returns `none` exactly when no candidate anywhere in the document parses
and passes the plausibility filter, and otherwise returns the
lexicographically smallest of the canonical `YYYY-MM-DD` strings of the
passing candidates (the earliest calendar date, as the canonical form
sorts chronologically). -/
theorem fallback_earliest_valid_date (today : SimpleDate) (text : String)
    (h : keywordScanL today text.data = none) :
    (findBirthdate today text = none ↔ validBirthdatesOf today text.data = []) ∧
    (∀ m, findBirthdate today text = some m →
      m.data ∈ validBirthdatesOf today text.data ∧
      ∀ x ∈ validBirthdatesOf today text.data, lexLe m.data x = true) := by
  have hfb : findBirthdate today text =
      (if (validBirthdatesOf today text.data).isEmpty then none
       else (sortJS (validBirthdatesOf today text.data)).head?).map
        (fun l => (⟨l⟩ : String)) := by
    unfold findBirthdate findBirthdateL
    rw [h]
    rfl
  by_cases hV : validBirthdatesOf today text.data = []
  · rw [hV] at hfb
    simp only [List.isEmpty_nil, if_true, Option.map_none'] at hfb
    constructor
    · rw [hfb, hV]
      simp
    · intro m hm
      rw [hfb] at hm
      exact absurd hm (by simp)
  · have hE : (validBirthdatesOf today text.data).isEmpty = false := by
      cases hEq : validBirthdatesOf today text.data with
      | nil => exact absurd hEq hV
      | cons a l => rfl
    rw [hE] at hfb
    simp only [Bool.false_eq_true, if_false] at hfb
    have hS : sortJS (validBirthdatesOf today text.data) ≠ [] :=
      fun hnil => hV ((sortJS_eq_nil _).1 hnil)
    constructor
    · cases hSo : sortJS (validBirthdatesOf today text.data) with
      | nil => exact absurd hSo hS
      | cons a l =>
        rw [hSo] at hfb
        simp only [List.head?_cons, Option.map_some'] at hfb
        rw [hfb]
        simp [hV]
    · intro m hm
      rw [hfb] at hm
      cases hho : (sortJS (validBirthdatesOf today text.data)).head? with
      | none => rw [hho] at hm; exact absurd hm (by simp)
      | some d =>
        rw [hho] at hm
        simp only [Option.map_some', Option.some.injEq] at hm
        have hmd : m.data = d := by rw [← hm]
        obtain ⟨hmem, hmin⟩ := sortJS_head_min _ d hho
        rw [hmd]
        exact ⟨hmem, hmin⟩

/-- Witness for C8: in a keyword-free text holding `03/04/1999` and
`02/02/1995`, the canonical form `1995-02-02` is among the passing
candidates and is the smallest of them. -/
theorem fallback_earliest_valid_date_witness :
    ("1995-02-02" : String).data ∈
      validBirthdatesOf refToday "QQ 03/04/1999 RR 02/02/1995".data ∧
    ∀ x ∈ validBirthdatesOf refToday "QQ 03/04/1999 RR 02/02/1995".data,
      lexLe ("1995-02-02" : String).data x = true :=
  (fallback_earliest_valid_date refToday "QQ 03/04/1999 RR 02/02/1995"
      (by decide)).2 "1995-02-02" (by decide)

/-! ## Claim C9: duplicates among the date candidates -/

/-- Counterexample to C9 as stated: on `15 JAN 1990` both the
`DD-MMM-YYYY` template and the `DD MMM YYYY` template match the same
substring of the normalized text, and the normalized-text pass performs
no deduplication, so the identical candidate appears twice. -/
theorem extractAllDates_duplicates_counterexample :
    extractAllDates "15 JAN 1990" = ["15 JAN 1990", "15 JAN 1990"] ∧
    ¬ (extractAllDates "15 JAN 1990").Nodup := by
  decide

theorem contains_iff_mem (l : List (List Char)) (x : List Char) :
    l.contains x = true ↔ x ∈ l := by
  simp

theorem dedupAppend_structure : ∀ (ms acc : List (List Char)),
    ∃ s, dedupAppend acc ms = acc ++ s ∧ s.Nodup ∧ ∀ x ∈ s, x ∉ acc
  | [], acc => ⟨[], by simp [dedupAppend], List.nodup_nil, by simp⟩
  | m :: ms, acc => by
    have hstep : dedupAppend acc (m :: ms) =
        dedupAppend (if acc.contains (trimL m) then acc else acc ++ [trimL m]) ms := by
      simp only [dedupAppend, List.foldl]
    by_cases hc : acc.contains (trimL m) = true
    · rw [hstep, if_pos hc]
      exact dedupAppend_structure ms acc
    · rw [hstep, if_neg hc]
      obtain ⟨s, hs, hnd, hfr⟩ := dedupAppend_structure ms (acc ++ [trimL m])
      refine ⟨trimL m :: s, ?_, ?_, ?_⟩
      · rw [hs, List.append_assoc]
        rfl
      · exact List.nodup_cons.2 ⟨fun hmem => (hfr _ hmem) (by simp), hnd⟩
      · intro x hx
        rcases List.mem_cons.1 hx with hx | hx
        · rw [hx]
          intro hmem
          exact hc ((contains_iff_mem acc (trimL m)).2 hmem)
        · intro hmem
          exact hfr x hx (List.mem_append_left _ hmem)

theorem origPassDates_structure (text : List Char) :
    ∀ (ps : List (Bool → List Char → Option (List Char)))
      (acc : List (List Char)),
    ∃ s, origPassDates ps acc text = acc ++ s ∧ s.Nodup ∧ ∀ x ∈ s, x ∉ acc
  | [], acc => ⟨[], by simp [origPassDates], List.nodup_nil, by simp⟩
  | p :: ps, acc => by
    obtain ⟨s1, hs1, hnd1, hfr1⟩ := dedupAppend_structure (matchAllL p text) acc
    obtain ⟨s2, hs2, hnd2, hfr2⟩ :=
      origPassDates_structure text ps (dedupAppend acc (matchAllL p text))
    refine ⟨s1 ++ s2, ?_, ?_, ?_⟩
    · show origPassDates ps (dedupAppend acc (matchAllL p text)) text = _
      rw [hs2, hs1, List.append_assoc]
    · rw [List.nodup_append]
      refine ⟨hnd1, hnd2, ?_⟩
      intro x hx1 hx2
      exact hfr2 x hx2 (hs1 ▸ List.mem_append_right acc hx1)
    · intro x hx
      rcases List.mem_append.1 hx with hx | hx
      · exact hfr1 x hx
      · intro hmem
        exact hfr2 x hx (hs1 ▸ List.mem_append_left _ hmem)

/-- **C9 (amended).** The candidate list is the undeduplicated
normalized-text pass — in which the same substring may be collected
several times, once per matching template — followed by the
original-text additions, which ARE deduplicated: they are pairwise
distinct and none of them already occurs among the normalized-pass
candidates. -/
theorem extractAllDates_dedup_structure (text : List Char) :
    ∃ extra, extractAllDatesL text =
      normPassDates datePatterns (normalizeOCRTextL text) ++ extra ∧
      extra.Nodup ∧
      ∀ x ∈ extra, x ∉ normPassDates datePatterns (normalizeOCRTextL text) := by
  unfold extractAllDatesL
  split
  · exact origPassDates_structure text datePatterns
      (normPassDates datePatterns (normalizeOCRTextL text))
  · exact ⟨[], by simp, List.nodup_nil, by simp⟩

/-! ## Claim C10: the normalizer preserves length -/

theorem isPrefixOf_length : ∀ l1 l2 : List Char, l1.isPrefixOf l2 = true →
    l1.length ≤ l2.length := fun _ _ h =>
  (List.isPrefixOf_iff_prefix.1 h).length_le

theorem idxOfAux_le (needle : List Char) : ∀ (hay : List Char) (i j : Nat),
    idxOfAux needle i hay = some j → j + needle.length ≤ i + hay.length
  | [], i, j => by
    intro h
    unfold idxOfAux at h
    split at h
    · rename_i hE
      have hj : j = i := by cases h; rfl
      have hn : needle = [] := by
        cases needle with
        | nil => rfl
        | cons a l => exact absurd hE (by simp [List.isEmpty])
      rw [hj, hn]
    · exact absurd h (by simp)
  | c :: cs, i, j => by
    intro h
    unfold idxOfAux at h
    split at h
    · rename_i hP
      have hj : j = i := by cases h; rfl
      rw [hj]
      have := isPrefixOf_length needle (c :: cs) hP
      omega
    · have := idxOfAux_le needle cs (i + 1) j h
      simp only [List.length_cons]
      omega

theorem idxOf?_le (hay needle : List Char) (i : Nat) (h : idxOf? hay needle = some i) :
    i + needle.length ≤ hay.length := by
  have := idxOfAux_le needle hay 0 i h
  omega

/-- **C10.** Every replacement rule of the normalizer substitutes text of
equal length, so `normalizeOCRText` preserves the length of every
string; consequently any keyword index found in the normalized,
upper-cased text, together with the keyword's extent, stays within the
bounds of the original un-normalized string, so the context window of
`findBirthdate` validly addresses the original text. -/
theorem normalizer_length_preserving :
    (∀ s : String, (normalizeOCRText s).length = s.length) ∧
    (∀ (text kw : List Char) (i : Nat),
      idxOf? ((normalizeOCRTextL text).map upC) kw = some i →
      i + kw.length ≤ text.length) := by
  constructor
  · intro s
    show (normalizeOCRTextL s.data).length = s.data.length
    exact normalizeOCRTextL_length s.data
  · intro text kw i h
    have h1 := idxOf?_le _ _ _ h
    rwa [List.length_map, normalizeOCRTextL_length] at h1

/-- Witness for C10: the keyword `DOB` found at index 0 of the
normalized text addresses the original text in bounds. -/
theorem normalizer_length_preserving_witness :
    0 + ("DOB".data).length ≤ ("DOB 01/01/1990".data).length :=
  normalizer_length_preserving.2 "DOB 01/01/1990".data "DOB".data 0 (by decide)

end KycOcr
